import Mathlib

/-!
Verification development for the renderovh record-ingestion and
bank-classification engine (`src/app.py`).

The Python source is shallowly embedded: strings are Lean `String`s
(manipulated through their `List Char` data), Python dicts keyed by
strings become association lists built with an insert-or-overwrite
operation that mirrors Python dict assignment (replace value in place
when the key exists, append otherwise), `defaultdict(list)` becomes an
association list with an append-to-bucket operation, and the current
wall-clock time is passed in as an explicit `now : String` parameter.
Fallible parsing returns `Option`/`Except`.
-/

namespace RenderOvh

/-! ### Python string primitives -/

/-- Characters treated as whitespace by Python `str.strip()` (ASCII subset;
the modelled inputs stay in this alphabet). -/
def isPyWs (c : Char) : Bool :=
  c = ' ' || c = '\t' || c = '\n' || c = '\r' || c = Char.ofNat 11 || c = Char.ofNat 12

/-- Drop leading Python whitespace. -/
def lstripL (l : List Char) : List Char := l.dropWhile isPyWs

/-- Drop trailing Python whitespace. -/
def rstripL (l : List Char) : List Char := (l.reverse.dropWhile isPyWs).reverse

/-- Python `str.strip()` on the character list. -/
def pystrip (l : List Char) : List Char := rstripL (lstripL l)

/-- Python `s.split(sep)` with a one-character separator: splits on every
occurrence, never collapsing; the empty string yields `[[]]`. -/
def pysplit (sep : Char) : List Char → List (List Char)
  | [] => [[]]
  | c :: rest =>
    match pysplit sep rest with
    | [] => if c = sep then [[], []] else [[c]]
    | h :: t => if c = sep then [] :: h :: t else (c :: h) :: t

/-- Python `s.split(' ', 1)`: the part before the first space, and the
remainder after it when a space exists. -/
def splitFirstSpace : List Char → List Char × Option (List Char)
  | [] => ([], none)
  | c :: rest =>
    if c = ' ' then ([], some rest)
    else
      let p := splitFirstSpace rest
      (c :: p.1, p.2)

/-- `startsWithL p l` is Python `l.startswith(p)`. -/
def startsWithL : List Char → List Char → Bool
  | [], _ => true
  | _ :: _, [] => false
  | p :: ps, c :: cs => p = c && startsWithL ps cs

/-- Python `pat in l` substring containment. -/
def containsSub (pat : List Char) : List Char → Bool
  | [] => pat.isEmpty
  | c :: rest => startsWithL pat (c :: rest) || containsSub pat rest

/-- ASCII lower-casing, mirroring Python `str.lower()` on the modelled
alphabet (non-ASCII characters are left unchanged on both sides). -/
def pylower (l : List Char) : List Char := l.map Char.toLower

/-! ### PhoneNormalizer (`normalize_phone`, src/app.py lines 432-451) -/

/-- `re.sub(r'[^\d+]', '', phone)`: keep decimal digits and every plus
sign, wherever it occurs. -/
def phoneClean (l : List Char) : List Char :=
  l.filter (fun c => c.isDigit || c = '+')

/-- `^0033(\d{9})$`: returns the nine captured digits. -/
def phoneRule0033 (c : List Char) : Option (List Char) :=
  if c.length = 13 && startsWithL ['0', '0', '3', '3'] c && (c.drop 4).all Char.isDigit then
    some (c.drop 4)
  else none

/-- `^\+33(\d{9})$`. -/
def phoneRulePlus33 (c : List Char) : Option (List Char) :=
  if c.length = 12 && startsWithL ['+', '3', '3'] c && (c.drop 3).all Char.isDigit then
    some (c.drop 3)
  else none

/-- `^33(\d{9})$`. -/
def phoneRule33 (c : List Char) : Option (List Char) :=
  if c.length = 11 && startsWithL ['3', '3'] c && (c.drop 2).all Char.isDigit then
    some (c.drop 2)
  else none

/-- `^0(\d{9})$`. -/
def phoneRule0 (c : List Char) : Option (List Char) :=
  if c.length = 10 && startsWithL ['0'] c && (c.drop 1).all Char.isDigit then
    some (c.drop 1)
  else none

/-- `^(\d{9})$`. -/
def phoneRuleBare (c : List Char) : Option (List Char) :=
  if c.length = 9 && c.all Char.isDigit then some c else none

/-- The per-pattern body of the source's loop: on a regex match, build
`'0' + group(1)` and keep it only if it passes the final
`len(result) == 10 and result.startswith('0')` recheck; otherwise the
loop falls through to the next pattern. -/
def phoneTryRule (m : Option (List Char)) : Option (List Char) :=
  match m with
  | none => none
  | some g =>
    let r := '0' :: g
    if r.length = 10 && startsWithL ['0'] r then some r else none

/-- First rule (in the source's precedence order) that matches and passes
the recheck. -/
def phoneMatchRules (c : List Char) : Option (List Char) :=
  match phoneTryRule (phoneRule0033 c) with
  | some r => some r
  | none =>
    match phoneTryRule (phoneRulePlus33 c) with
    | some r => some r
    | none =>
      match phoneTryRule (phoneRule33 c) with
      | some r => some r
      | none =>
        match phoneTryRule (phoneRule0 c) with
        | some r => some r
        | none => phoneTryRule (phoneRuleBare c)

/-- `normalize_phone` on the character list: `if not phone: return None`,
then clean, then the ordered pattern loop. -/
def normalizePhoneL (l : List Char) : Option (List Char) :=
  if l.isEmpty then none
  else phoneMatchRules (phoneClean l)

/-- `normalize_phone` (src/app.py lines 432-451). -/
def normalize_phone (phone : String) : Option String :=
  (normalizePhoneL phone.data).map (fun r => String.mk r)

/-! #### Spec-side model of the normalizer's cleaning step

The spec of PhoneNormalizer says cleaning "strips every character except
digits and a leading `+`". The source keeps every `+`, wherever it
occurs. The following definitions follow the spec's words, for
comparison with `normalize_phone`. -/

/-- Modelled from the spec's words: keep decimal digits, and keep a `+`
only when it is the leading character of the input. -/
def specCleanLeadingPlus (l : List Char) : List Char :=
  match l with
  | '+' :: rest => '+' :: rest.filter Char.isDigit
  | l => l.filter Char.isDigit

/-- The five shape rules in the spec's precedence order, first match
wins, each producing `'0'` followed by the nine captured digits (no
recheck step: the spec does not mention one). -/
def specMatchRules (c : List Char) : Option (List Char) :=
  match phoneRule0033 c with
  | some g => some ('0' :: g)
  | none =>
    match phoneRulePlus33 c with
    | some g => some ('0' :: g)
    | none =>
      match phoneRule33 c with
      | some g => some ('0' :: g)
      | none =>
        match phoneRule0 c with
        | some g => some ('0' :: g)
        | none => (phoneRuleBare c).map (fun g => '0' :: g)

/-- Modelled from the spec's words: clean keeping only a leading plus,
then match the five rules. -/
def specNormalizePhoneClaim (s : String) : Option String :=
  (specMatchRules (specCleanLeadingPlus s.data)).map (fun r => String.mk r)

/-! ### Python dict and defaultdict primitives

A Python dict keyed by strings is an association list with distinct
keys: assignment replaces the value in place when the key exists
(keeping its position, as dicts keep first-insertion order) and appends
otherwise. `defaultdict(list)` with `.append` becomes `dappend`. -/

/-- Python `m[k] = v`. -/
def dinsert {α : Type} : List (String × α) → String → α → List (String × α)
  | [], k, v => [(k, v)]
  | (k', v') :: rest, k, v =>
    if k' = k then (k', v) :: rest else (k', v') :: dinsert rest k v

/-- Python `m.get(k)`. -/
def dlookup {α : Type} : List (String × α) → String → Option α
  | [], _ => none
  | (k', v) :: rest, k => if k' = k then some v else dlookup rest k

/-- Python `m[k].append(v)` on a `defaultdict(list)`. -/
def dappend {α : Type} : List (String × List α) → String → α → List (String × List α)
  | [], k, v => [(k, [v])]
  | (k', l) :: rest, k, v =>
    if k' = k then (k', l ++ [v]) :: rest else (k', l) :: dappend rest k v

/-- The dict denoted by a Python dict literal: entries assigned in
order, later duplicate keys overwriting earlier ones. -/
def pyDict {α : Type} (entries : List (String × α)) : List (String × α) :=
  entries.foldl (fun m kv => dinsert m kv.1 kv.2) []

/-- First-some choice, used to state lookup lemmas. -/
def oor {α : Type} : Option α → Option α → Option α
  | some v, _ => some v
  | none, b => b

/-! ### IBANDetector (src/app.py lines 124-341)

The two curated tables are transcribed entry for entry in source
order, duplicate keys included (a Python dict literal keeps the last
value for a duplicated key, which `pyDict` reproduces). -/

/-- The `self.local_banks` dict literal (src/app.py lines 127-234). -/
def localBanksEntries : List (String × String) := [
  ("10907", "BNP Paribas"),
  ("30004", "BNP Paribas"),
  ("30001", "BNP Paribas"),
  ("10108", "BNP Paribas"),
  ("30003", "Société Générale"),
  ("30002", "Société Générale"),
  ("20041", "La Banque Postale"),
  ("30056", "BRED"),
  ("10107", "BRED Banque Populaire"),
  ("10278", "Crédit Mutuel"),
  ("10068", "Crédit Mutuel Anjou"),
  ("10096", "Crédit Mutuel Océan"),
  ("10138", "Crédit Mutuel Maine-Anjou"),
  ("10758", "Crédit Mutuel Nord Europe"),
  ("10518", "Crédit Mutuel Île-de-France"),
  ("10798", "Crédit Mutuel Dauphiné-Vivarais"),
  ("10838", "Crédit Mutuel Midi-Atlantique"),
  ("10548", "Crédit Mutuel Centre"),
  ("10878", "Crédit Mutuel Savoie-Mont Blanc"),
  ("10738", "Crédit Mutuel Loire-Atlantique Centre Ouest"),
  ("10207", "Crédit Mutuel"),
  ("10906", "CIC"),
  ("11027", "CIC Lyonnaise de Banque"),
  ("11315", "CIC Ouest"),
  ("11516", "CIC Est"),
  ("11706", "CIC Sud Ouest"),
  ("30066", "CIC"),
  ("10107", "Banque Populaire"),
  ("13357", "Banque Populaire Auvergne Rhône Alpes"),
  ("11455", "Banque Populaire Bourgogne Franche-Comté"),
  ("12455", "Banque Populaire Grand Ouest"),
  ("13135", "Banque Populaire Méditerranée"),
  ("13825", "Banque Populaire Occitane"),
  ("14445", "Banque Populaire Rives de Paris"),
  ("14559", "Banque Populaire Val de France"),
  ("17068", "Banque Populaire Alsace Lorraine Champagne"),
  ("18315", "Banque Populaire du Nord"),
  ("18415", "Banque Populaire"),
  ("10695", "Caisse d'Épargne"),
  ("10778", "Caisse d'Épargne Île-de-France"),
  ("11315", "Caisse d'Épargne Loire-Centre"),
  ("12135", "Caisse d'Épargne Provence-Alpes-Corse"),
  ("12548", "Caisse d'Épargne Aquitaine Poitou-Charentes"),
  ("12755", "Caisse d'Épargne Midi-Pyrénées"),
  ("13625", "Caisse d'Épargne Bretagne-Pays de Loire"),
  ("13715", "Caisse d'Épargne Côte d'Azur"),
  ("15135", "Caisse d'Épargne Bourgogne Franche-Comté"),
  ("15589", "Caisse d'Épargne Loire Drôme Ardèche"),
  ("16515", "Caisse d'Épargne Grand Est Europe"),
  ("17515", "Caisse d'Épargne Hauts de France"),
  ("18315", "Caisse d'Épargne Normandie"),
  ("17906", "Caisse d'Épargne Rhône Alpes"),
  ("16798", "ING Direct"),
  ("12548", "Boursorama"),
  ("17515", "Monabanq"),
  ("18206", "N26"),
  ("16958", "Hello Bank"),
  ("13698", "Fortuneo"),
  ("15589", "BforBank"),
  ("12968", "Orange Bank"),
  ("30002", "LCL - Le Crédit Lyonnais"),
  ("30005", "LCL"),
  ("30027", "Crédit Coopératif"),
  ("30056", "BRED"),
  ("13506", "Crédit du Nord"),
  ("10479", "Banque Kolb"),
  ("10529", "Banque Nuger"),
  ("10589", "Banque Laydernier"),
  ("10609", "Banque Rhône-Alpes"),
  ("10868", "Banque Tarneaud"),
  ("15589", "Banque Palatine"),
  ("18315", "Société Marseillaise de Crédit"),
  ("30006", "HSBC France"),
  ("30007", "Barclays"),
  ("12739", "Crédit Foncier"),
  ("13134", "Banque Accord"),
  ("15135", "Banque Casino"),
  ("16958", "Revolut"),
  ("18206", "N26"),
  ("17515", "Qonto"),
  ("12968", "Nickel")]

/-- The `self.codes_ca` dict literal (src/app.py lines 237-284). -/
def codesCAEntries : List (String × String) := [
  ("13906", "Crédit Agricole Centre-Est"),
  ("14706", "Crédit Agricole Atlantique Vendée"),
  ("18706", "Crédit Agricole Île-de-France"),
  ("16906", "Crédit Agricole Pyrénées Gascogne"),
  ("18206", "Crédit Agricole Nord-Est"),
  ("11706", "Crédit Agricole Charente Périgord"),
  ("10206", "Crédit Agricole Nord de France"),
  ("13306", "Crédit Agricole Aquitaine"),
  ("13606", "Crédit Agricole Centre Ouest"),
  ("14506", "Crédit Agricole Centre Loire"),
  ("16606", "Crédit Agricole Normandie-Seine"),
  ("17206", "Crédit Agricole Alsace Vosges"),
  ("17906", "Crédit Agricole Anjou Maine"),
  ("12406", "Crédit Agricole Charente-Maritime"),
  ("12906", "Crédit Agricole Finistère"),
  ("12206", "Crédit Agricole Morbihan"),
  ("14806", "Crédit Agricole Languedoc"),
  ("17106", "Crédit Agricole Loire Haute-Loire"),
  ("11206", "Crédit Agricole Brie Picardie"),
  ("13106", "Crédit Agricole Alpes Provence"),
  ("14406", "Crédit Agricole Ille-et-Vilaine"),
  ("16106", "Crédit Agricole Deux-Sèvres"),
  ("16706", "Crédit Agricole Sud Rhône Alpes"),
  ("17306", "Crédit Agricole Sud Méditerranée"),
  ("18106", "Crédit Agricole Touraine Poitou"),
  ("19106", "Crédit Agricole Centre France"),
  ("12506", "Crédit Agricole Loire Océan"),
  ("13206", "Crédit Agricole Midi-Pyrénées"),
  ("14206", "Crédit Agricole Normandie"),
  ("15206", "Crédit Agricole Savoie Mont Blanc"),
  ("16206", "Crédit Agricole Franche-Comté"),
  ("17606", "Crédit Agricole Lorraine"),
  ("18406", "Crédit Agricole Val de France"),
  ("19406", "Crédit Agricole Provence Côte d'Azur"),
  ("19906", "Crédit Agricole Côtes d'Armor"),
  ("16806", "Crédit Agricole Cantal Auvergne"),
  ("12006", "Crédit Agricole Corse"),
  ("11006", "Crédit Agricole Champagne-Bourgogne"),
  ("16006", "Crédit Agricole Morbihan"),
  ("17806", "Crédit Agricole Centre-Est"),
  ("13506", "Crédit Agricole Languedoc"),
  ("18306", "Crédit Agricole Normandie"),
  ("11306", "Crédit Agricole Alpes Provence"),
  ("30002", "Crédit Agricole"),
  ("11315", "Crédit Agricole"),
  ("13335", "Crédit Agricole")]

/-- `self.local_banks` as a dict. -/
def local_banks : List (String × String) := pyDict localBanksEntries

/-- `self.codes_ca` as a dict. -/
def codes_ca : List (String × String) := pyDict codesCAEntries

/-- `self.all_banks = {**self.local_banks, **self.codes_ca}`: start from
`local_banks` and assign every `codes_ca` item over it. -/
def all_banks : List (String × String) :=
  codes_ca.foldl (fun m kv => dinsert m kv.1 kv.2) local_banks

/-- `IBANDetector.clean_iban`: remove spaces and hyphens, upper-case
(ASCII upper-casing; the modelled identifiers stay ASCII). -/
def clean_iban (iban : String) : String :=
  if iban = "" then ""
  else String.mk ((iban.data.filter (fun c => !(c = ' ') && !(c = '-'))).map Char.toUpper)

/-- `IBANDetector.detect_local` on an already-cleaned identifier. The
source's `if bank_name:` treats a missing key and an empty name alike
(Python truthiness); its `except` branch is unreachable in the model
because slicing and dict lookup cannot raise. -/
def detect_local (iban_clean : String) : String :=
  if !(startsWithL ['F', 'R'] iban_clean.data) then "Banque étrangère"
  else if iban_clean.length < 14 then "IBAN invalide"
  else
    let code_banque := String.mk ((iban_clean.data.drop 4).take 5)
    match dlookup all_banks code_banque with
    | some name =>
      if name = "" then "Banque française (" ++ code_banque ++ ")" else name
    | none => "Banque française (" ++ code_banque ++ ")"

/-- `IBANDetector.detect_bank`. -/
def detect_bank (iban : String) : String :=
  if iban = "" then "N/A"
  else
    let iban_clean := clean_iban iban
    if iban_clean = "" then "N/A" else detect_local iban_clean

/-- `IBANDetector.extract_bank_code`. -/
def extract_bank_code (iban : String) : String :=
  if iban = "" then "unknown"
  else
    let iban_clean := clean_iban iban
    if iban_clean.length < 14 || !(startsWithL ['F', 'R'] iban_clean.data) then "unknown"
    else String.mk ((iban_clean.data.drop 4).take 5)

/-- The bank-detection block shared verbatim by both parsers
(src/app.py lines 555-576 and 680-700): from the stripped account
identifier field, produce `(bank_code, banque, detected)` where
`detected` says whether the `banks_detected` metric is incremented. -/
def bankFields (iban : String) : String × String × Bool :=
  if iban = "" then ("unknown", "N/A", false)
  else
    let iban_clean := clean_iban iban
    let bank_code := extract_bank_code iban
    if iban_clean.length < 14 || !(startsWithL ['F', 'R'] iban_clean.data) then
      if !(startsWithL ['F', 'R'] iban_clean.data) then
        (bank_code, "🏦 " ++ "Banque étrangère", false)
      else
        (bank_code, "🏦 " ++ "IBAN invalide", false)
    else
      match dlookup all_banks bank_code with
      | some name =>
        if name = "" then
          (bank_code, "🏦 " ++ ("Banque française (" ++ bank_code ++ ")"), false)
        else (bank_code, "🏦 " ++ name, true)
      | none => (bank_code, "🏦 " ++ ("Banque française (" ++ bank_code ++ ")"), false)

/-! ### Client records and the in-memory store -/

/-- One client record, with the exact fields the source assembles in
both parsers (src/app.py lines 579-601 and 702-724). `nb_appels` is a
count, `dernier_appel` is nullable; everything else is a string. -/
structure Client where
  nom : String
  prenom : String
  email : String
  entreprise : String
  telephone : String
  adresse : String
  ville : String
  code_postal : String
  banque : String
  bank_code : String
  swift : String
  iban : String
  sexe : String
  date_naissance : String
  lieu_naissance : String
  profession : String
  statut : String
  date_upload : String
  nb_appels : Nat
  dernier_appel : Option String
  notes : String
  deriving Repr, DecidableEq

/-- The two store globals: `clients_database` (phone → record dict) and
`clients_by_bank` (`defaultdict(list)` of phones per sort-code prefix). -/
structure Store where
  db : List (String × Client)
  byBank : List (String × List String)
  deriving Repr, DecidableEq

/-- Python `"sep".join(fields)`. -/
def joinSep (sep : List Char) : List (List Char) → List Char
  | [] => []
  | [x] => x
  | x :: y :: rest => x ++ sep ++ joinSep sep (y :: rest)

/-- All phones across all grouping buckets, in bucket order. -/
def joinPhones (byBank : List (String × List String)) : List String :=
  (byBank.map Prod.snd).flatten

/-! ### RecordParser, delimited-text variant
(`load_clients_from_pipe_file`, src/app.py lines 627-747) -/

/-- `parts[i].strip() if len(parts) > i else ''`. -/
def getPart (parts : List (List Char)) (i : Nat) : String :=
  if i < parts.length then String.mk (pystrip (parts.getD i [])) else ""

/-- Does a tail match the regex remainder `\s*\((\d{5})\)` at its start
(`re.match` is not end-anchored)? Returns the five digits. -/
def villeCheck (l : List Char) : Option (List Char) :=
  match l.dropWhile isPyWs with
  | '(' :: rest =>
    let ds := rest.take 5
    if ds.length = 5 && ds.all Char.isDigit then
      match rest.drop 5 with
      | ')' :: _ => some ds
      | _ => none
    else none
  | _ => none

/-- `re.match(r'(.+?)\s*\((\d{5})\)', l)`: the lazy `(.+?)` takes the
shortest nonempty prefix (of non-newline characters, as `.` does not
match a newline) after which `\s*\((\d{5})\)` matches. Returns
`(group(1), group(2))`. -/
def villeSearch : List Char → Option (List Char × List Char)
  | [] => none
  | c :: rest =>
    if c = '\n' then none
    else
      match villeCheck rest with
      | some ds => some ([c], ds)
      | none =>
        match villeSearch rest with
        | some (pre, ds) => some (c :: pre, ds)
        | none => none

/-- The `ville (code postal)` field parse: on a regex match,
`group(1).strip()` and the digits; otherwise the whole field with an
empty postal code. -/
def villeParse (ville_code : String) : String × String :=
  match villeSearch ville_code.data with
  | some (pre, ds) => (String.mk (pystrip pre), String.mk ds)
  | none => (ville_code, "")

/-- `nom_complet.split(' ', 1)` into `(nom, prenom)`; no space means an
empty `prenom`. -/
def splitNomComplet (nom_complet : String) : String × String :=
  match splitFirstSpace nom_complet.data with
  | (a, some b) => (String.mk a, String.mk b)
  | (_, none) => (nom_complet, "")

/-- One line of the pipe format: skip blank lines and lines with fewer
than seven fields, skip on failed phone normalization, otherwise build
the record (`statut` Prospect, `date_upload` now, counters zero). The
boolean reports whether the `banks_detected` metric is incremented. -/
def parsePipeLine (now : String) (line : List Char) : Option (Client × Bool) :=
  if (pystrip line).isEmpty then none
  else
    let parts := pysplit '|' line
    if parts.length < 7 then none
    else
      let telephone_raw := getPart parts 0
      let nom_complet := getPart parts 1
      let date_naissance := getPart parts 2
      let email := getPart parts 3
      let adresse := getPart parts 4
      let ville_code := getPart parts 5
      let iban := getPart parts 6
      let swift := getPart parts 7
      match normalize_phone telephone_raw with
      | none => none
      | some telephone =>
        let nomPair := splitNomComplet nom_complet
        let villePair := villeParse ville_code
        let bf := bankFields iban
        some ({ nom := nomPair.1, prenom := nomPair.2, email := email,
                entreprise := "N/A", telephone := telephone, adresse := adresse,
                ville := villePair.1, code_postal := villePair.2,
                banque := bf.2.1, bank_code := bf.1, swift := swift, iban := iban,
                sexe := "N/A", date_naissance := date_naissance,
                lieu_naissance := "N/A", profession := "N/A", statut := "Prospect",
                date_upload := now, nb_appels := 0, dernier_appel := none,
                notes := "" }, bf.2.2)

/-- Insert one accepted record: `clients_database[telephone] = data`,
`clients_by_bank[bank_code].append(telephone)`, bump `loaded_count` and
(conditionally) `banks_detected`. -/
def storeInsert (st : Store × Nat × Nat) (r : Option (Client × Bool)) : Store × Nat × Nat :=
  match r with
  | none => st
  | some (c, det) =>
    (⟨dinsert st.1.db c.telephone c, dappend st.1.byBank c.bank_code c.telephone⟩,
      st.2.1 + 1, st.2.2 + (if det then 1 else 0))

/-- `file_content.strip().split('\n')`. -/
def pipeLines (content : String) : List (List Char) :=
  pysplit '\n' (pystrip content.data)

/-- `load_clients_from_pipe_file`: resets both store globals, folds the
lines, returns `(loaded_count, store, banks_detected)`; the source
returns `loaded_count` and records `len(clients_database)` in
`upload_stats["total_clients"]`, which here is `store.db.length`. -/
def load_clients_from_pipe_file (content : String) (now : String) : Nat × Store × Nat :=
  let r := (pipeLines content).foldl (fun st line => storeInsert st (parsePipeLine now line))
    (⟨[], []⟩, 0, 0)
  (r.2.1, r.1, r.2.2)

/-- The accepted rows of an ingestion, in input order. -/
def acceptedRows (content : String) (now : String) : List (Client × Bool) :=
  (pipeLines content).filterMap (parsePipeLine now)

/-- The normalized phones of the accepted rows, in input order. -/
def acceptedPhones (content : String) (now : String) : List String :=
  (acceptedRows content now).map (fun cb => cb.1.telephone)

/-- The accepted `(phone, record)` assignments, in input order. -/
def acceptedPairs (content : String) (now : String) : List (String × Client) :=
  (acceptedRows content now).map (fun cb => (cb.1.telephone, cb.1))

/-- The accepted `(bank_code, phone)` grouping appends, in input order. -/
def acceptedBankPairs (content : String) (now : String) : List (String × String) :=
  (acceptedRows content now).map (fun cb => (cb.1.bank_code, cb.1.telephone))

/-! ### ClientStore lookup (`get_client_info`, src/app.py lines 453-465,
and `create_unknown_client`, lines 749-758) -/

/-- The synthesized placeholder for a lookup miss: status
`Non référencé` (NotOnFile), explicit unknown sentinels, the raw phone
echoed back. -/
def create_unknown_client (phone_number : String) : Client :=
  { nom := "INCONNU", prenom := "CLIENT", email := "N/A", entreprise := "N/A",
    adresse := "N/A", ville := "N/A", code_postal := "N/A",
    telephone := phone_number, banque := "N/A", bank_code := "unknown",
    swift := "N/A", iban := "N/A", sexe := "N/A", date_naissance := "N/A",
    lieu_naissance := "N/A", profession := "N/A", statut := "Non référencé",
    date_upload := "N/A", nb_appels := 0, dernier_appel := none, notes := "" }

/-- `get_client_info`: on a hit the source first takes `.copy()` of the
stored dict and only then increments `nb_appels` and stamps
`dernier_appel`, so the returned copy is the pre-update record. Returns
`(returned record, updated clients_database)`. -/
def get_client_info (db : List (String × Client)) (now : String) (phone_number : String) :
    Client × List (String × Client) :=
  if phone_number = "" then (create_unknown_client phone_number, db)
  else
    match normalize_phone phone_number with
    | some normalized =>
      match dlookup db normalized with
      | some client =>
        (client, dinsert db normalized
          { client with nb_appels := client.nb_appels + 1, dernier_appel := some now })
      | none => (create_unknown_client phone_number, db)
    | none => (create_unknown_client phone_number, db)

/-! ### RecordParser, spreadsheet variant
(`load_clients_from_excel`, src/app.py lines 471-625) -/

/-- A successfully opened workbook: the header row and the data rows
(each cell a nullable string). `none` in `Option ExcelData` stands for
`openpyxl.load_workbook` raising on a corrupt container. -/
structure ExcelData where
  headerRow : List (Option String)
  dataRows : List (List (Option String))
  deriving Repr

/-- The header-keyword `elif` chain (src/app.py lines 494-515), applied
to `str(header).lower().strip()`. -/
def headerField (header : String) : Option String :=
  let hl := pystrip (pylower header.data)
  if containsSub "tel".data hl || containsSub "phone".data hl then some "telephone"
  else if containsSub "nom".data hl && !containsSub "prenom".data hl then some "nom"
  else if containsSub "prenom".data hl || containsSub "prénom".data hl then some "prenom"
  else if containsSub "naissance".data hl || containsSub "birth".data hl then
    some "date_naissance"
  else if containsSub "email".data hl || containsSub "mail".data hl then some "email"
  else if containsSub "adresse".data hl || containsSub "address".data hl then some "adresse"
  else if containsSub "ville".data hl || containsSub "city".data hl then some "ville"
  else if containsSub "code".data hl && containsSub "postal".data hl then some "code_postal"
  else if containsSub "iban".data hl then some "iban"
  else if containsSub "swift".data hl || containsSub "bic".data hl then some "swift"
  else none

/-- `col_mapping`: fold over the enumerated header cells, skipping falsy
cells; a later header matching the same semantic column overwrites the
mapping. -/
def buildColMapping (headerRow : List (Option String)) : List (String × Nat) :=
  headerRow.enum.foldl
    (fun m p =>
      match p.2 with
      | none => m
      | some h =>
        if h = "" then m
        else
          match headerField h with
          | some key => dinsert m key p.1
          | none => m)
    []

/-- `get_cell`: the mapped column's cell, stripped; `''` when the column
is unmapped, out of range, or the cell is `None`. -/
def get_cell (colMapping : List (String × Nat)) (row : List (Option String))
    (key : String) : String :=
  match dlookup colMapping key with
  | some idx =>
    if idx < row.length then
      match row.getD idx none with
      | some v => String.mk (pystrip v.data)
      | none => ""
    else ""
  | none => ""

/-- A cell that is `None` or strips to empty. -/
def blankCell : Option String → Bool
  | none => true
  | some s => (pystrip s.data).isEmpty

/-- One data row of the spreadsheet: skip a row of blank cells, read
each semantic column, infer `prenom` from a space in `nom` when the
`prenom` cell is empty, normalize the phone (skip on failure), classify
the bank, and build the record. -/
def parseExcelRow (colMapping : List (String × Nat)) (now : String)
    (row : List (Option String)) : Option (Client × Bool) :=
  if row.isEmpty || row.all blankCell then none
  else
    let telephone_raw := get_cell colMapping row "telephone"
    let nom0 := get_cell colMapping row "nom"
    let prenom0 := get_cell colMapping row "prenom"
    let date_naissance := get_cell colMapping row "date_naissance"
    let email := get_cell colMapping row "email"
    let adresse := get_cell colMapping row "adresse"
    let ville := get_cell colMapping row "ville"
    let code_postal := get_cell colMapping row "code_postal"
    let iban := get_cell colMapping row "iban"
    let swift := get_cell colMapping row "swift"
    match normalize_phone telephone_raw with
    | none => none
    | some telephone =>
      let nomPair :=
        if prenom0 = "" && containsSub [' '] nom0.data then splitNomComplet nom0
        else (nom0, prenom0)
      let bf := bankFields iban
      some ({ nom := nomPair.1, prenom := nomPair.2, email := email,
              entreprise := "N/A", telephone := telephone, adresse := adresse,
              ville := ville, code_postal := code_postal,
              banque := bf.2.1, bank_code := bf.1, swift := swift, iban := iban,
              sexe := "N/A", date_naissance := date_naissance,
              lieu_naissance := "N/A", profession := "N/A", statut := "Prospect",
              date_upload := now, nb_appels := 0, dernier_appel := none,
              notes := "" }, bf.2.2)

/-- The successful part of the Excel ingestion: header inference, then
the data-row fold. Returns `(store, loaded_count, banks_detected)`. -/
def processExcelRows (data : ExcelData) (now : String) : Store × Nat × Nat :=
  let colMapping := buildColMapping data.headerRow
  data.dataRows.foldl (fun st row => storeInsert st (parseExcelRow colMapping now row))
    (⟨[], []⟩, 0, 0)

/-- `load_clients_from_excel`: the source reassigns both store globals
to empty BEFORE the `try:` that opens the workbook, so a corrupt
container (`wb = none`, `openpyxl.load_workbook` raising) re-raises as
`ValueError` with the store already cleared; the prior contents are
gone either way. -/
def load_clients_from_excel (prior : Store) (wb : Option ExcelData) (now : String) :
    Except String Nat × Store :=
  let cleared : Store := { prior with db := [], byBank := [] }
  match wb with
  | none => (Except.error "Erreur lecture Excel", cleared)
  | some data =>
    let r := processExcelRows data now
    (Except.ok r.2.1, r.1)

/-! ### ExportGenerator (`generate_all_clients_file`, src/app.py lines
856-903, the `format_type == 'txt'` branch) -/

/-- One exported line: the eight pipe-joined fields, name re-joined
with a single space, city re-joined as `ville (code postal)`. -/
def exportPipeLine (c : Client) : List Char :=
  joinSep ['|'] [c.telephone.data, (c.nom ++ " " ++ c.prenom).data,
    c.date_naissance.data, c.email.data, c.adresse.data,
    (c.ville ++ " (" ++ c.code_postal ++ ")").data, c.iban.data, c.swift.data]

/-- The delimited-text export of the whole store: one line per record in
dict insertion order, newline-joined. -/
def generate_all_clients_file_txt (db : List (String × Client)) : String :=
  String.mk (joinSep ['\n'] (db.map (fun pc => exportPipeLine pc.2)))

/-! ### Round-trip safety (C9)

The delimited-text export is re-parsable without loss of the claimed
fields only when the serialized fields cannot collide with the format's
structure. `RoundTripSafe` captures the sufficient conditions: the
phone is canonical; no field contains the delimiter or a newline; the
last name carries no space (a space would be re-split as a name
boundary) and no edge whitespace; the account identifier and the
trailing SWIFT field are stripped; and a nonempty first name requires a
nonempty last name and no trailing whitespace (the name field is
re-joined with one space and stripped as a whole on re-parse). -/

/-- The field contains neither the `|` delimiter nor a newline. -/
def noPipeNL (s : String) : Prop :=
  ∀ ch ∈ s.data, ch ≠ '|' ∧ ch ≠ '\n'

/-- A canonical phone: ten characters, leading `0`, all digits. -/
def telOK (s : String) : Prop :=
  s.data.length = 10 ∧ s.data.take 1 = ['0'] ∧ s.data.all Char.isDigit = true

/-- `strip()` is a no-op on the field. -/
def stripOK (s : String) : Prop := pystrip s.data = s.data

/-- Right-`strip()` is a no-op on the field. -/
def rstripOK (s : String) : Prop := rstripL s.data = s.data

/-- Sufficient conditions on one record for the export round trip. -/
def RoundTripSafe (c : Client) : Prop :=
  telOK c.telephone ∧
  noPipeNL c.nom ∧ noPipeNL c.prenom ∧ noPipeNL c.date_naissance ∧ noPipeNL c.email ∧
  noPipeNL c.adresse ∧ noPipeNL c.ville ∧ noPipeNL c.code_postal ∧
  noPipeNL c.iban ∧ noPipeNL c.swift ∧
  ' ' ∉ c.nom.data ∧ stripOK c.nom ∧ stripOK c.iban ∧ stripOK c.swift ∧
  (c.prenom ≠ "" → c.nom ≠ "" ∧ rstripOK c.prenom)

instance decNoPipeNL (s : String) : Decidable (noPipeNL s) := by
  unfold noPipeNL
  infer_instance

instance decTelOK (s : String) : Decidable (telOK s) := by
  unfold telOK
  infer_instance

instance decStripOK (s : String) : Decidable (stripOK s) := by
  unfold stripOK
  infer_instance

instance decRstripOK (s : String) : Decidable (rstripOK s) := by
  unfold rstripOK
  infer_instance

instance decRoundTripSafe (c : Client) : Decidable (RoundTripSafe c) := by
  unfold RoundTripSafe
  infer_instance

/-- The four fields the round-trip claim says are reconstructed. -/
def recProj (pr : String × Client) : String × String × String × String :=
  (pr.2.telephone, pr.2.nom, pr.2.prenom, pr.2.iban)

/-- A record whose last-name field contains a space, as the spreadsheet
parser produces when separate name columns are present: re-parsing its
export re-splits the name at the first space. -/
def spacedNomClient : Client :=
  { create_unknown_client "0612345678" with nom := "De La", prenom := "Jean" }

/-- A store holding `spacedNomClient`. -/
def spacedNomStore : List (String × Client) := [("0612345678", spacedNomClient)]

/-- A concrete one-record store (built by a pipe ingestion), used as a
fixture by witnesses and counterexamples. -/
def sampleStore : Store :=
  (load_clients_from_pipe_file
    "0612345678|A B|d|e|f|Paris (75001)|FR7630003000000000000000000|S" "T0").2.1

/-! #### Normalizer lemmas -/

theorem phoneRule0033_length {c g : List Char} (h : phoneRule0033 c = some g) :
    g.length = 9 := by
  unfold phoneRule0033 at h
  split at h
  · rename_i hc
    cases h
    simp only [Bool.and_eq_true, decide_eq_true_eq] at hc
    simp [List.length_drop, hc.1.1]
  · cases h

theorem phoneRulePlus33_length {c g : List Char} (h : phoneRulePlus33 c = some g) :
    g.length = 9 := by
  unfold phoneRulePlus33 at h
  split at h
  · rename_i hc
    cases h
    simp only [Bool.and_eq_true, decide_eq_true_eq] at hc
    simp [List.length_drop, hc.1.1]
  · cases h

theorem phoneRule33_length {c g : List Char} (h : phoneRule33 c = some g) :
    g.length = 9 := by
  unfold phoneRule33 at h
  split at h
  · rename_i hc
    cases h
    simp only [Bool.and_eq_true, decide_eq_true_eq] at hc
    simp [List.length_drop, hc.1.1]
  · cases h

theorem phoneRule0_length {c g : List Char} (h : phoneRule0 c = some g) :
    g.length = 9 := by
  unfold phoneRule0 at h
  split at h
  · rename_i hc
    cases h
    simp only [Bool.and_eq_true, decide_eq_true_eq] at hc
    simp [List.length_drop, hc.1.1]
  · cases h

theorem phoneRuleBare_length {c g : List Char} (h : phoneRuleBare c = some g) :
    g.length = 9 := by
  unfold phoneRuleBare at h
  split at h
  · rename_i hc
    cases h
    simp only [Bool.and_eq_true, decide_eq_true_eq] at hc
    exact hc.1
  · cases h

/-- The loop body's recheck always passes when the matched group has
nine characters, so it reduces to prepending `'0'`. -/
theorem phoneTryRule_of_nine {m : Option (List Char)}
    (h : ∀ g, m = some g → g.length = 9) :
    phoneTryRule m = m.map (fun g => '0' :: g) := by
  cases m with
  | none => rfl
  | some g =>
    have hg := h g rfl
    simp [phoneTryRule, hg, startsWithL]

theorem phoneMatchRules_eq_spec (c : List Char) :
    phoneMatchRules c = specMatchRules c := by
  unfold phoneMatchRules specMatchRules
  rw [phoneTryRule_of_nine (fun g h => phoneRule0033_length h)]
  rw [phoneTryRule_of_nine (fun g h => phoneRulePlus33_length h)]
  rw [phoneTryRule_of_nine (fun g h => phoneRule33_length h)]
  rw [phoneTryRule_of_nine (fun g h => phoneRule0_length h)]
  rw [phoneTryRule_of_nine (fun g h => phoneRuleBare_length h)]
  cases phoneRule0033 c <;> cases phoneRulePlus33 c <;> cases phoneRule33 c <;>
    cases phoneRule0 c <;> cases phoneRuleBare c <;> rfl

/-- C6 counterexample: on `"0612345678+"` the source keeps the trailing
`+` (its cleaning keeps every plus sign), so no rule matches and it
returns the absent result, while the claim's cleaning ("digits and a
leading `+`") would discard it and yield the canonical number. -/
theorem claim_C6_counterexample :
    normalize_phone "0612345678+" = none ∧
      specNormalizePhoneClaim "0612345678+" = some "0612345678" := by
  constructor
  · decide
  · decide

/-- C6 (amended): phone normalization first strips every character
except digits and plus signs (every `+` is kept, wherever it occurs, not
only a leading one), then matches the cleaned string against the five
shape rules `0033<9>`, `+33<9>`, `33<9>`, `0<9>`, bare `<9>` in that
precedence order, returning `'0'` followed by the nine captured digits
on a match and the absent result otherwise; being a total function it
never raises. -/
theorem claim_C6 (s : String) :
    normalize_phone s = (specMatchRules (phoneClean s.data)).map (fun r => String.mk r) := by
  unfold normalize_phone normalizePhoneL
  cases hs : s.data with
  | nil => simp [phoneClean, specMatchRules, phoneRule0033, phoneRulePlus33,
      phoneRule33, phoneRule0, phoneRuleBare, startsWithL]
  | cons c rest => simp [phoneMatchRules_eq_spec]

/-- Digit-only lists are unchanged by the cleaning filter. -/
theorem phoneClean_digits {d : List Char} (hd : d.all Char.isDigit = true) :
    phoneClean d = d := by
  unfold phoneClean
  apply List.filter_eq_self.mpr
  intro a ha
  have := List.all_eq_true.mp hd a ha
  simp [this]

/-- C7: every one of the five accepted shapes of a valid domestic
number (`0033`+digits, `+33`+digits, `33`+digits, leading-zero form, and
bare nine digits) normalizes to the identical canonical value, and the
canonical value itself normalizes to itself (idempotence). -/
theorem claim_C7 (d : List Char) (hl : d.length = 9) (hd : d.all Char.isDigit = true) :
    normalize_phone (String.mk ('0' :: '0' :: '3' :: '3' :: d)) = some (String.mk ('0' :: d)) ∧
    normalize_phone (String.mk ('+' :: '3' :: '3' :: d)) = some (String.mk ('0' :: d)) ∧
    normalize_phone (String.mk ('3' :: '3' :: d)) = some (String.mk ('0' :: d)) ∧
    normalize_phone (String.mk ('0' :: d)) = some (String.mk ('0' :: d)) ∧
    normalize_phone (String.mk d) = some (String.mk ('0' :: d)) := by
  have hclean : ∀ pre : List Char, (∀ c ∈ pre, (c.isDigit || c = '+') = true) →
      phoneClean (pre ++ d) = pre ++ d := by
    intro pre hpre
    unfold phoneClean
    apply List.filter_eq_self.mpr
    intro a ha
    rcases List.mem_append.mp ha with h | h
    · exact hpre a h
    · have := List.all_eq_true.mp hd a h
      simp [this]
  refine ⟨?_, ?_, ?_, ?_, ?_⟩
  · show (normalizePhoneL ('0' :: '0' :: '3' :: '3' :: d)).map _ = _
    have hc : phoneClean ('0' :: '0' :: '3' :: '3' :: d) = '0' :: '0' :: '3' :: '3' :: d := by
      have := hclean ['0', '0', '3', '3'] (by decide)
      simpa using this
    have hrule : phoneRule0033 ('0' :: '0' :: '3' :: '3' :: d) = some d := by
      unfold phoneRule0033
      simp [startsWithL, hl, hd]
    simp [normalizePhoneL, phoneMatchRules, hc, hrule, phoneTryRule, hl, startsWithL]
  · show (normalizePhoneL ('+' :: '3' :: '3' :: d)).map _ = _
    have hc : phoneClean ('+' :: '3' :: '3' :: d) = '+' :: '3' :: '3' :: d := by
      have := hclean ['+', '3', '3'] (by decide)
      simpa using this
    have h1 : phoneRule0033 ('+' :: '3' :: '3' :: d) = none := by
      unfold phoneRule0033
      simp [hl]
    have hrule : phoneRulePlus33 ('+' :: '3' :: '3' :: d) = some d := by
      unfold phoneRulePlus33
      simp [startsWithL, hl, hd]
    simp [normalizePhoneL, phoneMatchRules, hc, h1, hrule, phoneTryRule, hl, startsWithL]
  · show (normalizePhoneL ('3' :: '3' :: d)).map _ = _
    have hc : phoneClean ('3' :: '3' :: d) = '3' :: '3' :: d := by
      have := hclean ['3', '3'] (by decide)
      simpa using this
    have h1 : phoneRule0033 ('3' :: '3' :: d) = none := by
      unfold phoneRule0033
      simp [hl]
    have h2 : phoneRulePlus33 ('3' :: '3' :: d) = none := by
      unfold phoneRulePlus33
      simp [hl]
    have hrule : phoneRule33 ('3' :: '3' :: d) = some d := by
      unfold phoneRule33
      simp [startsWithL, hl, hd]
    simp [normalizePhoneL, phoneMatchRules, hc, h1, h2, hrule, phoneTryRule, hl, startsWithL]
  · show (normalizePhoneL ('0' :: d)).map _ = _
    have hc : phoneClean ('0' :: d) = '0' :: d := by
      have := hclean ['0'] (by decide)
      simpa using this
    have h1 : phoneRule0033 ('0' :: d) = none := by
      unfold phoneRule0033
      simp [hl]
    have h2 : phoneRulePlus33 ('0' :: d) = none := by
      unfold phoneRulePlus33
      simp [hl]
    have h3 : phoneRule33 ('0' :: d) = none := by
      unfold phoneRule33
      simp [hl]
    have hrule : phoneRule0 ('0' :: d) = some d := by
      unfold phoneRule0
      simp [startsWithL, hl, hd]
    simp [normalizePhoneL, phoneMatchRules, hc, h1, h2, h3, hrule, phoneTryRule, hl, startsWithL]
  · show (normalizePhoneL d).map _ = _
    have hd9 : d ≠ [] := by
      intro h
      rw [h] at hl
      cases hl
    have hc : phoneClean d = d := phoneClean_digits hd
    have h1 : phoneRule0033 d = none := by
      unfold phoneRule0033
      simp [hl]
    have h2 : phoneRulePlus33 d = none := by
      unfold phoneRulePlus33
      simp [hl]
    have h3 : phoneRule33 d = none := by
      unfold phoneRule33
      simp [hl]
    have h4 : phoneRule0 d = none := by
      unfold phoneRule0
      simp [hl]
    have hrule : phoneRuleBare d = some d := by
      unfold phoneRuleBare
      simp [hl, hd]
    have hne : d.isEmpty = false := by
      cases d with
      | nil => exact absurd rfl hd9
      | cons a l => rfl
    simp [normalizePhoneL, phoneMatchRules, hne, hc, h1, h2, h3, h4, hrule, phoneTryRule, hl,
      startsWithL]

/-! #### Dict lemmas -/

theorem dlookup_dinsert {α : Type} (m : List (String × α)) (k : String) (v : α) (q : String) :
    dlookup (dinsert m k v) q = if q = k then some v else dlookup m q := by
  induction m with
  | nil =>
    by_cases h : q = k <;> simp_all [dinsert, dlookup, eq_comm]
  | cons a t ih =>
    obtain ⟨a1, a2⟩ := a
    by_cases h1 : a1 = k <;> by_cases h2 : a1 = q <;>
      simp_all [dinsert, dlookup, eq_comm]

theorem dlookup_append {α : Type} (m1 m2 : List (String × α)) (q : String) :
    dlookup (m1 ++ m2) q = oor (dlookup m1 q) (dlookup m2 q) := by
  induction m1 with
  | nil => simp [dlookup, oor]
  | cons a t ih =>
    obtain ⟨a1, a2⟩ := a
    by_cases h : a1 = q <;> simp_all [dlookup, oor]

theorem oor_assoc {α : Type} (a b c : Option α) : oor (oor a b) c = oor a (oor b c) := by
  cases a <;> cases b <;> rfl

theorem oor_none_right {α : Type} (a : Option α) : oor a none = a := by
  cases a <;> rfl

theorem dlookup_foldl_dinsert {α : Type} (l : List (String × α)) (m : List (String × α))
    (q : String) :
    dlookup (l.foldl (fun m kv => dinsert m kv.1 kv.2) m) q =
      oor (dlookup l.reverse q) (dlookup m q) := by
  induction l generalizing m with
  | nil => simp [dlookup, oor]
  | cons a t ih =>
    obtain ⟨a1, a2⟩ := a
    show dlookup (t.foldl _ (dinsert m a1 a2)) q = _
    rw [ih, dlookup_dinsert]
    have hrev : ((a1, a2) :: t).reverse = t.reverse ++ [(a1, a2)] := by simp
    rw [hrev, dlookup_append, oor_assoc]
    have harg : (if q = a1 then some a2 else dlookup m q) =
        oor (dlookup [(a1, a2)] q) (dlookup m q) := by
      by_cases h : a1 = q
      · subst h
        simp [dlookup, oor]
      · have h' : ¬(q = a1) := fun hh => h hh.symm
        simp [dlookup, oor, h, h']
    rw [harg]

theorem dlookup_eq_none_of_not_mem {α : Type} {m : List (String × α)} {q : String}
    (h : q ∉ m.map Prod.fst) : dlookup m q = none := by
  induction m with
  | nil => rfl
  | cons a t ih =>
    obtain ⟨a1, a2⟩ := a
    simp only [List.map_cons, List.mem_cons] at h
    push_neg at h
    simp [dlookup, Ne.symm h.1, ih h.2]

theorem dlookup_isSome_of_mem {α : Type} {m : List (String × α)} {q : String}
    (h : q ∈ m.map Prod.fst) : (dlookup m q).isSome = true := by
  induction m with
  | nil => simp at h
  | cons a t ih =>
    obtain ⟨a1, a2⟩ := a
    by_cases h1 : a1 = q
    · simp [dlookup, h1]
    · simp only [List.map_cons, List.mem_cons] at h
      rcases h with h | h
      · exact absurd h.symm h1
      · simp [dlookup, h1, ih h]

theorem dlookup_reverse_of_nodup {α : Type} {m : List (String × α)} {q : String}
    (h : (m.map Prod.fst).Nodup) : dlookup m.reverse q = dlookup m q := by
  induction m with
  | nil => rfl
  | cons a t ih =>
    obtain ⟨a1, a2⟩ := a
    simp only [List.map_cons, List.nodup_cons] at h
    have hrev : ((a1, a2) :: t).reverse = t.reverse ++ [(a1, a2)] := by simp
    rw [hrev, dlookup_append]
    by_cases h1 : a1 = q
    · subst h1
      have hnone : dlookup t a1 = none := dlookup_eq_none_of_not_mem h.1
      have hnone' : dlookup t.reverse a1 = none := by
        apply dlookup_eq_none_of_not_mem
        simpa using h.1
      simp [hnone', dlookup, oor]
    · rw [ih h.2]
      cases hd : dlookup t q <;> simp [dlookup, h1, oor, hd]

theorem dlookup_mem_values {α : Type} {m : List (String × α)} {q : String} {v : α}
    (h : dlookup m q = some v) : v ∈ m.map Prod.snd := by
  induction m with
  | nil => cases h
  | cons a t ih =>
    obtain ⟨a1, a2⟩ := a
    by_cases h1 : a1 = q
    · simp [dlookup, h1] at h
      simp [h]
    · simp [dlookup, h1] at h
      simp [ih h]

/-! #### Routing table lemmas -/

/-- Every display name stored in the merged routing table is nonempty,
so Python's truthiness test on a successful lookup always passes. -/
theorem all_banks_values_nonempty : ∀ kv ∈ all_banks, kv.2 ≠ "" := by decide

theorem dlookup_all_banks_nonempty {q : String} {n : String}
    (h : dlookup all_banks q = some n) : n ≠ "" := by
  have hv := dlookup_mem_values h
  rcases List.mem_map.mp hv with ⟨kv, hkv, hn⟩
  rw [← hn]
  exact all_banks_values_nonempty kv hkv

/-- C8: the routing table is the merge of the general-banks table with
the regional-network (Crédit Agricole) table; for every prefix defined
in both source tables, the merged table maps it to the regional-network
entry (last-merge-wins). The merged table is a constant of the
embedding, never mutated (no assignment to `all_banks` exists in the
source after `__init__`). -/
theorem claim_C8 (k : String) (_h1 : k ∈ local_banks.map Prod.fst)
    (h2 : k ∈ codes_ca.map Prod.fst) :
    dlookup all_banks k = dlookup codes_ca k ∧ (dlookup codes_ca k).isSome = true := by
  have hnodup : (codes_ca.map Prod.fst).Nodup := by decide
  have hsome := dlookup_isSome_of_mem h2
  constructor
  · unfold all_banks
    rw [dlookup_foldl_dinsert, dlookup_reverse_of_nodup hnodup]
    cases hd : dlookup codes_ca k with
    | none => rw [hd] at hsome; cases hsome
    | some v => simp [oor]
  · exact hsome

/-- C8 witness: prefix `30002` is defined in both tables (general:
`LCL - Le Crédit Lyonnais` last, regional: `Crédit Agricole`), and the
merged table resolves it to the regional entry. -/
theorem claim_C8_witness :
    "30002" ∈ local_banks.map Prod.fst ∧ "30002" ∈ codes_ca.map Prod.fst ∧
      dlookup all_banks "30002" = dlookup codes_ca "30002" ∧
      (dlookup codes_ca "30002").isSome = true :=
  ⟨by decide, by decide,
    (claim_C8 "30002" (by decide) (by decide)).1,
    (claim_C8 "30002" (by decide) (by decide)).2⟩

/-! #### Classification lemmas -/

theorem clean_iban_empty : clean_iban "" = "" := rfl

theorem clean_iban_ne_empty {s : String} (h : clean_iban s ≠ "") : s ≠ "" := by
  intro hs
  rw [hs, clean_iban_empty] at h
  exact h rfl

theorem startsWithL_ne_nil {p : List Char} {l : List Char} (hp : p ≠ [])
    (h : startsWithL p l = true) : l ≠ [] := by
  intro hl
  subst hl
  cases p with
  | nil => exact hp rfl
  | cons c cs => cases h

theorem string_data_ne_nil {s : String} (h : s.data ≠ []) : s ≠ "" := by
  intro hs
  rw [hs] at h
  exact h rfl

/-- C5: classification of a raw account identifier, after normalization
(spaces and hyphens removed, upper-cased), falls in exactly one of the
four source outcomes, in priority order: normalized-empty gives `N/A`
and prefix `unknown`; not starting with `FR` gives the foreign-bank
display name and prefix `unknown`; `FR` but shorter than 14 gives the
invalid-identifier display name and prefix `unknown`; otherwise the
prefix is the five characters at 0-indexed positions 4-8, the display
name is the routing-table entry when present and the formatted French
fallback otherwise, and in both sub-cases the parser's bank block
groups the record under that prefix, incrementing the
banks-precisely-identified metric exactly when the table lookup hit.
(The French display strings: `N/A`, `Banque étrangère` = Foreign bank,
`IBAN invalide` = Invalid account identifier, `Banque française (p)` =
French bank (p).) -/
theorem claim_C5 (s : String) :
    (clean_iban s = "" ∧ detect_bank s = "N/A" ∧ extract_bank_code s = "unknown")
    ∨ (clean_iban s ≠ "" ∧ startsWithL ['F', 'R'] (clean_iban s).data = false ∧
        detect_bank s = "Banque étrangère" ∧ extract_bank_code s = "unknown")
    ∨ (startsWithL ['F', 'R'] (clean_iban s).data = true ∧ (clean_iban s).length < 14 ∧
        detect_bank s = "IBAN invalide" ∧ extract_bank_code s = "unknown")
    ∨ (startsWithL ['F', 'R'] (clean_iban s).data = true ∧ 14 ≤ (clean_iban s).length ∧
        extract_bank_code s = String.mk (((clean_iban s).data.drop 4).take 5) ∧
        ((∃ n, dlookup all_banks (extract_bank_code s) = some n ∧ n ≠ "" ∧
            detect_bank s = n ∧
            bankFields s = (extract_bank_code s, "🏦 " ++ n, true))
          ∨ (dlookup all_banks (extract_bank_code s) = none ∧
              detect_bank s = "Banque française (" ++ extract_bank_code s ++ ")" ∧
              bankFields s = (extract_bank_code s,
                "🏦 " ++ ("Banque française (" ++ extract_bank_code s ++ ")"), false)))) := by
  by_cases h0 : clean_iban s = ""
  · left
    refine ⟨h0, ?_, ?_⟩
    · unfold detect_bank
      by_cases hs : s = "" <;> simp [hs, h0]
    · unfold extract_bank_code
      by_cases hs : s = ""
      · simp [hs]
      · have hlt : (clean_iban s).length < 14 := by
          rw [h0]
          decide
        simp [hs, hlt]
  · have hs : s ≠ "" := clean_iban_ne_empty h0
    by_cases hfr : startsWithL ['F', 'R'] (clean_iban s).data = true
    · by_cases hlen : (clean_iban s).length < 14
      · right; right; left
        refine ⟨hfr, hlen, ?_, ?_⟩
        · unfold detect_bank detect_local
          simp [hs, h0, hfr, hlen]
        · unfold extract_bank_code
          simp [hs, hlen]
      · right; right; right
        have hlen' : 14 ≤ (clean_iban s).length := Nat.le_of_not_lt hlen
        have hextract : extract_bank_code s =
            String.mk (((clean_iban s).data.drop 4).take 5) := by
          unfold extract_bank_code
          simp [hs, hlen, hfr]
        refine ⟨hfr, hlen', hextract, ?_⟩
        cases hlook : dlookup all_banks (extract_bank_code s) with
        | some n =>
          left
          have hn : n ≠ "" := dlookup_all_banks_nonempty hlook
          refine ⟨n, rfl, hn, ?_, ?_⟩
          · unfold detect_bank detect_local
            rw [hextract] at hlook
            simp [hs, h0, hfr, hlen, hlook, hn]
          · unfold bankFields
            simp only [hs, if_neg hs]
            simp [hs, hlen, hfr, hlook, hn]
        | none =>
          right
          refine ⟨rfl, ?_, ?_⟩
          · unfold detect_bank detect_local
            rw [hextract] at hlook
            simp [hs, h0, hfr, hlen, hlook, hextract]
          · unfold bankFields
            simp only [hs, if_neg hs]
            simp [hs, hlen, hfr, hlook]
    · right; left
      have hfr' : startsWithL ['F', 'R'] (clean_iban s).data = false :=
        Bool.eq_false_iff.mpr hfr
      refine ⟨h0, hfr', ?_, ?_⟩
      · unfold detect_bank detect_local
        simp [hs, h0, hfr']
      · unfold extract_bank_code
        simp [hs, hfr']

/-- C10: inside a single curated dict literal only the last occurrence
of a duplicated prefix survives; classifying any FR identifier of
length at least 14 carrying prefix `12548` yields `Boursorama` (not the
earlier Caisse d'Épargne entry), prefix `17515` yields `Qonto`, and
prefix `10107` yields `Banque Populaire`. -/
theorem claim_C10 (s : String) :
    (startsWithL ['F', 'R'] (clean_iban s).data = true → 14 ≤ (clean_iban s).length →
      String.mk (((clean_iban s).data.drop 4).take 5) = "12548" →
      detect_bank s = "Boursorama") ∧
    (startsWithL ['F', 'R'] (clean_iban s).data = true → 14 ≤ (clean_iban s).length →
      String.mk (((clean_iban s).data.drop 4).take 5) = "17515" →
      detect_bank s = "Qonto") ∧
    (startsWithL ['F', 'R'] (clean_iban s).data = true → 14 ≤ (clean_iban s).length →
      String.mk (((clean_iban s).data.drop 4).take 5) = "10107" →
      detect_bank s = "Banque Populaire") := by
  have main : ∀ (p n : String), dlookup all_banks p = some n → n ≠ "" →
      startsWithL ['F', 'R'] (clean_iban s).data = true → 14 ≤ (clean_iban s).length →
      String.mk (((clean_iban s).data.drop 4).take 5) = p → detect_bank s = n := by
    intro p n hlook hn hfr hlen hp
    have h0 : clean_iban s ≠ "" := by
      apply string_data_ne_nil
      exact startsWithL_ne_nil (by decide) hfr
    have hs : s ≠ "" := clean_iban_ne_empty h0
    unfold detect_bank detect_local
    rw [← hp] at hlook
    simp [hs, h0, hfr, Nat.not_lt.mpr hlen, hlook, hn]
  refine ⟨?_, ?_, ?_⟩
  · intro h1 h2 h3
    exact main "12548" "Boursorama" (by decide) (by decide) h1 h2 h3
  · intro h1 h2 h3
    exact main "17515" "Qonto" (by decide) (by decide) h1 h2 h3
  · intro h1 h2 h3
    exact main "10107" "Banque Populaire" (by decide) (by decide) h1 h2 h3

/-- C10 witness: three concrete identifiers carrying the duplicated
prefixes classify to the last-listed names. -/
theorem claim_C10_witness :
    detect_bank "FR7612548000000000" = "Boursorama" ∧
    detect_bank "FR7617515000000000" = "Qonto" ∧
    detect_bank "FR7610107000000000" = "Banque Populaire" :=
  ⟨(claim_C10 "FR7612548000000000").1 (by decide) (by decide) (by decide),
    (claim_C10 "FR7617515000000000").2.1 (by decide) (by decide) (by decide),
    (claim_C10 "FR7610107000000000").2.2 (by decide) (by decide) (by decide)⟩

/-! #### Ingestion fold lemmas -/

theorem storeInsert_none (st : Store × Nat × Nat) : storeInsert st none = st := rfl

theorem storeInsert_some (st : Store × Nat × Nat) (c : Client) (det : Bool) :
    storeInsert st (some (c, det)) =
      (⟨dinsert st.1.db c.telephone c, dappend st.1.byBank c.bank_code c.telephone⟩,
        st.2.1 + 1, st.2.2 + (if det then 1 else 0)) := rfl

theorem foldl_storeInsert_spec {χ : Type} (parse : χ → Option (Client × Bool))
    (xs : List χ) (st : Store × Nat × Nat) :
    xs.foldl (fun st x => storeInsert st (parse x)) st =
      (xs.filterMap parse).foldl (fun st cb => storeInsert st (some cb)) st := by
  induction xs generalizing st with
  | nil => rfl
  | cons x t ih =>
    cases h : parse x with
    | none =>
      simp only [List.foldl_cons, List.filterMap_cons, h, storeInsert_none]
      exact ih st
    | some cb =>
      simp only [List.foldl_cons, List.filterMap_cons, h]
      exact ih _

theorem runAccepted_db (l : List (Client × Bool)) (st : Store × Nat × Nat) :
    (l.foldl (fun st cb => storeInsert st (some cb)) st).1.db =
      l.foldl (fun m cb => dinsert m cb.1.telephone cb.1) st.1.db := by
  induction l generalizing st with
  | nil => rfl
  | cons cb t ih =>
    obtain ⟨c, det⟩ := cb
    simp only [List.foldl_cons, storeInsert_some, ih]

theorem runAccepted_byBank (l : List (Client × Bool)) (st : Store × Nat × Nat) :
    (l.foldl (fun st cb => storeInsert st (some cb)) st).1.byBank =
      l.foldl (fun b cb => dappend b cb.1.bank_code cb.1.telephone) st.1.byBank := by
  induction l generalizing st with
  | nil => rfl
  | cons cb t ih =>
    obtain ⟨c, det⟩ := cb
    simp only [List.foldl_cons, storeInsert_some, ih]

theorem runAccepted_loaded (l : List (Client × Bool)) (st : Store × Nat × Nat) :
    (l.foldl (fun st cb => storeInsert st (some cb)) st).2.1 = st.2.1 + l.length := by
  induction l generalizing st with
  | nil => rfl
  | cons cb t ih =>
    obtain ⟨c, det⟩ := cb
    simp only [List.foldl_cons, storeInsert_some, ih, List.length_cons]
    omega

theorem load_pipe_db (content now : String) :
    (load_clients_from_pipe_file content now).2.1.db =
      (acceptedPairs content now).foldl (fun m kv => dinsert m kv.1 kv.2) [] := by
  unfold load_clients_from_pipe_file
  rw [foldl_storeInsert_spec]
  show (_ : Store × Nat × Nat).1.db = _
  rw [runAccepted_db]
  unfold acceptedPairs acceptedRows
  rw [List.foldl_map]

theorem load_pipe_byBank (content now : String) :
    (load_clients_from_pipe_file content now).2.1.byBank =
      (acceptedBankPairs content now).foldl (fun b kv => dappend b kv.1 kv.2) [] := by
  unfold load_clients_from_pipe_file
  rw [foldl_storeInsert_spec]
  show (_ : Store × Nat × Nat).1.byBank = _
  rw [runAccepted_byBank]
  unfold acceptedBankPairs acceptedRows
  rw [List.foldl_map]

theorem load_pipe_count (content now : String) :
    (load_clients_from_pipe_file content now).1 = (acceptedRows content now).length := by
  unfold load_clients_from_pipe_file
  rw [foldl_storeInsert_spec]
  show (_ : Store × Nat × Nat).2.1 = _
  rw [runAccepted_loaded]
  unfold acceptedRows
  simp

theorem dinsert_length_le {α : Type} (m : List (String × α)) (k : String) (v : α) :
    (dinsert m k v).length ≤ m.length + 1 := by
  induction m with
  | nil => simp [dinsert]
  | cons a t ih =>
    obtain ⟨a1, a2⟩ := a
    by_cases h : a1 = k
    · simp [dinsert, h]
    · simp only [dinsert, if_neg h, List.length_cons]
      omega

theorem foldl_dinsert_length_le {α : Type} (l : List (String × α)) (m : List (String × α)) :
    (l.foldl (fun m kv => dinsert m kv.1 kv.2) m).length ≤ m.length + l.length := by
  induction l generalizing m with
  | nil => simp
  | cons a t ih =>
    have h1 := ih (dinsert m a.1 a.2)
    have h2 := dinsert_length_le m a.1 a.2
    simp only [List.foldl_cons, List.length_cons]
    omega

theorem dinsert_of_not_mem {α : Type} {m : List (String × α)} {k : String} (v : α)
    (h : k ∉ m.map Prod.fst) : dinsert m k v = m ++ [(k, v)] := by
  induction m with
  | nil => rfl
  | cons a t ih =>
    obtain ⟨a1, a2⟩ := a
    simp only [List.map_cons, List.mem_cons] at h
    push_neg at h
    simp [dinsert, h.1.symm, Ne.symm h.1, ih h.2]

theorem foldl_dinsert_keys {α : Type} (l : List (String × α)) (m : List (String × α))
    (hdisj : ∀ k ∈ l.map Prod.fst, k ∉ m.map Prod.fst)
    (hn : (l.map Prod.fst).Nodup) :
    (l.foldl (fun m kv => dinsert m kv.1 kv.2) m).map Prod.fst =
      m.map Prod.fst ++ l.map Prod.fst := by
  induction l generalizing m with
  | nil => simp
  | cons a t ih =>
    obtain ⟨a1, a2⟩ := a
    simp only [List.map_cons, List.nodup_cons] at hn
    have ha1 : a1 ∉ m.map Prod.fst := hdisj a1 (by simp)
    have hins : dinsert m a1 a2 = m ++ [(a1, a2)] := dinsert_of_not_mem a2 ha1
    simp only [List.foldl_cons]
    rw [hins, ih (m ++ [(a1, a2)])]
    · simp
    · intro k hk
      simp only [List.map_append, List.mem_append]
      push_neg
      constructor
      · exact hdisj k (by simp [hk])
      · simp only [List.map_cons, List.map_nil, List.mem_singleton]
        intro hkeq
        rw [hkeq] at hk
        exact hn.1 hk
    · exact hn.2

theorem joinPhones_cons (k : String) (l : List String) (t : List (String × List String)) :
    joinPhones ((k, l) :: t) = l ++ joinPhones t := by
  simp [joinPhones]

theorem mem_keys_dinsert {α : Type} {m : List (String × α)} {k k' : String} {v : α} :
    k' ∈ (dinsert m k v).map Prod.fst ↔ k' = k ∨ k' ∈ m.map Prod.fst := by
  induction m with
  | nil => simp [dinsert]
  | cons a t ih =>
    obtain ⟨a1, a2⟩ := a
    by_cases h : a1 = k
    · subst h
      simp [dinsert]
    · simp only [dinsert, if_neg h, List.map_cons, List.mem_cons, ih]
      tauto

theorem mem_keys_foldl_dinsert {α : Type} {l : List (String × α)} {m : List (String × α)}
    {k : String} :
    k ∈ (l.foldl (fun m kv => dinsert m kv.1 kv.2) m).map Prod.fst ↔
      k ∈ m.map Prod.fst ∨ k ∈ l.map Prod.fst := by
  induction l generalizing m with
  | nil => simp
  | cons a t ih =>
    simp only [List.foldl_cons, ih, mem_keys_dinsert, List.map_cons, List.mem_cons]
    tauto

theorem joinPhones_dappend (bb : List (String × List String)) (k p : String) :
    (joinPhones (dappend bb k p)).Perm (p :: joinPhones bb) := by
  induction bb with
  | nil => simp [dappend, joinPhones]
  | cons a t ih =>
    obtain ⟨k', l'⟩ := a
    by_cases h : k' = k
    · simp only [dappend, if_pos h, joinPhones_cons]
      rw [List.append_assoc]
      exact List.perm_middle
    · simp only [dappend, if_neg h, joinPhones_cons]
      exact (ih.append_left l').trans List.perm_middle

theorem joinPhones_foldl_dappend (l : List (String × String)) (bb : List (String × List String)) :
    (joinPhones (l.foldl (fun b kv => dappend b kv.1 kv.2) bb)).Perm
      (l.map Prod.snd ++ joinPhones bb) := by
  induction l generalizing bb with
  | nil => simp
  | cons a t ih =>
    obtain ⟨k, p⟩ := a
    simp only [List.foldl_cons, List.map_cons, List.cons_append]
    exact ((ih (dappend bb k p)).trans
      ((joinPhones_dappend bb k p).append_left (t.map Prod.snd))).trans List.perm_middle

/-- C2 counterexample: ingesting two rows that normalize to the same
phone appends that phone to the grouping index twice, so a phone occurs
twice across the `byBank` sequences and the sum of their lengths (2)
differs from the store's record count (1); the claim fails as stated
for such inputs. -/
theorem claim_C2_counterexample :
    ¬ (joinPhones (load_clients_from_pipe_file
        "0612345678|A X|d|e|f|g|FRX\n0612345678|B Y|d|e|f|g|FRX" "NOW").2.1.byBank).Nodup ∧
    (joinPhones (load_clients_from_pipe_file
        "0612345678|A X|d|e|f|g|FRX\n0612345678|B Y|d|e|f|g|FRX" "NOW").2.1.byBank).length ≠
      (load_clients_from_pipe_file
        "0612345678|A X|d|e|f|g|FRX\n0612345678|B Y|d|e|f|g|FRX" "NOW").2.1.db.length := by
  decide

/-- C2 (amended): after every ingestion, every phone in a `byBank`
grouping sequence is a key of the phone map; and when the accepted rows
carry pairwise distinct normalized phones, additionally no phone occurs
twice across the grouping sequences and the sum of the grouping
sequences' lengths equals the store's record count. (With duplicate
phones the phone map keeps one record but the grouping index keeps
every occurrence, so the last two properties fail; the counterexample
forces exactly this restriction.) -/
theorem claim_C2 (content now : String) :
    (∀ p ∈ joinPhones (load_clients_from_pipe_file content now).2.1.byBank,
        p ∈ (load_clients_from_pipe_file content now).2.1.db.map Prod.fst) ∧
    ((acceptedPhones content now).Nodup →
      (joinPhones (load_clients_from_pipe_file content now).2.1.byBank).Nodup ∧
      (joinPhones (load_clients_from_pipe_file content now).2.1.byBank).length =
        (load_clients_from_pipe_file content now).2.1.db.length) := by
  have hkeys : (acceptedPairs content now).map Prod.fst = acceptedPhones content now := by
    unfold acceptedPairs acceptedPhones
    simp [List.map_map]
  have hsnd : (acceptedBankPairs content now).map Prod.snd = acceptedPhones content now := by
    unfold acceptedBankPairs acceptedPhones
    simp [List.map_map]
  have hjp : (joinPhones (load_clients_from_pipe_file content now).2.1.byBank).Perm
      (acceptedPhones content now) := by
    rw [load_pipe_byBank]
    have hperm := joinPhones_foldl_dappend (acceptedBankPairs content now) []
    simp only [joinPhones, List.map_nil, List.flatten_nil, List.append_nil] at hperm
    rw [hsnd] at hperm
    exact hperm
  constructor
  · intro p hp
    rw [load_pipe_db]
    apply mem_keys_foldl_dinsert.mpr
    right
    rw [hkeys]
    exact hjp.mem_iff.mp hp
  · intro h
    have hdb : (load_clients_from_pipe_file content now).2.1.db.map Prod.fst =
        acceptedPhones content now := by
      rw [load_pipe_db, foldl_dinsert_keys (acceptedPairs content now) [] (by simp)
        (by rw [hkeys]; exact h)]
      rw [hkeys]
      simp
    constructor
    · exact hjp.symm.nodup h
    · rw [hjp.length_eq, ← List.length_map
        (load_clients_from_pipe_file content now).2.1.db Prod.fst, hdb]

/-- C2 witness: an ingestion of two rows with distinct phones satisfies
all three consistency properties. -/
theorem claim_C2_witness :
    (∀ p ∈ joinPhones (load_clients_from_pipe_file
        "0612345678|A X|d|e|f|g|FR7630003000000000000000000\n0612345679|B Y|d|e|f|g|FRX"
        "NOW").2.1.byBank,
      p ∈ (load_clients_from_pipe_file
        "0612345678|A X|d|e|f|g|FR7630003000000000000000000\n0612345679|B Y|d|e|f|g|FRX"
        "NOW").2.1.db.map Prod.fst) ∧
    ((joinPhones (load_clients_from_pipe_file
        "0612345678|A X|d|e|f|g|FR7630003000000000000000000\n0612345679|B Y|d|e|f|g|FRX"
        "NOW").2.1.byBank).Nodup ∧
      (joinPhones (load_clients_from_pipe_file
        "0612345678|A X|d|e|f|g|FR7630003000000000000000000\n0612345679|B Y|d|e|f|g|FRX"
        "NOW").2.1.byBank).length =
        (load_clients_from_pipe_file
          "0612345678|A X|d|e|f|g|FR7630003000000000000000000\n0612345679|B Y|d|e|f|g|FRX"
          "NOW").2.1.db.length) :=
  ⟨(claim_C2
      "0612345678|A X|d|e|f|g|FR7630003000000000000000000\n0612345679|B Y|d|e|f|g|FRX"
      "NOW").1,
    (claim_C2
      "0612345678|A X|d|e|f|g|FR7630003000000000000000000\n0612345679|B Y|d|e|f|g|FRX"
      "NOW").2 (by decide)⟩

/-- C3 counterexample: two rows with the same normalized phone: the
ingestion returns 2 (rows processed) while the store holds a single
record, whose fields come from the later row (last-wins) — the returned
count does not equal the final store size, refuting the claim on an
input satisfying its duplicate-phones hypothesis. -/
theorem claim_C3_counterexample :
    (load_clients_from_pipe_file
      "0612345678|A X|d|e|f|g|FRX\n0612345678|B Y|d|e|f|g|FRX" "NOW").1 = 2 ∧
    (load_clients_from_pipe_file
      "0612345678|A X|d|e|f|g|FRX\n0612345678|B Y|d|e|f|g|FRX" "NOW").2.1.db.length = 1 ∧
    (dlookup (load_clients_from_pipe_file
      "0612345678|A X|d|e|f|g|FRX\n0612345678|B Y|d|e|f|g|FRX" "NOW").2.1.db
      "0612345678").map Client.nom = some "B" := by
  decide

/-- C3 (amended): looking any phone up in the freshly ingested store
yields the record of the last accepted row carrying that phone
(last-wins overwrite), and the count returned by the ingestion equals
the number of accepted rows — which bounds the store's record count
from above and exceeds it exactly when duplicates were overwritten (the
store size itself is recorded separately, in
`upload_stats["total_clients"]`). -/
theorem claim_C3 (content now : String) :
    (∀ p : String, dlookup (load_clients_from_pipe_file content now).2.1.db p =
        dlookup (acceptedPairs content now).reverse p) ∧
    (load_clients_from_pipe_file content now).1 = (acceptedRows content now).length ∧
    (load_clients_from_pipe_file content now).2.1.db.length ≤
      (acceptedRows content now).length := by
  refine ⟨?_, load_pipe_count content now, ?_⟩
  · intro p
    rw [load_pipe_db, dlookup_foldl_dinsert]
    simp [dlookup, oor_none_right]
  · rw [load_pipe_db]
    have h := foldl_dinsert_length_le (acceptedPairs content now) []
    unfold acceptedPairs at h ⊢
    simp only [List.length_nil, Nat.zero_add, List.length_map] at h
    exact h

/-! #### Lookup and Excel-failure theorems -/

theorem normalize_phone_empty : normalize_phone "" = none := rfl

/-- C4 counterexample: on a hit, the source copies the record BEFORE
incrementing, so the returned copy still has `nb_appels = 0` and no
`dernier_appel` while the stored record was updated to 1 and stamped —
the returned value is not a copy of the updated record. -/
theorem claim_C4_counterexample :
    (get_client_info sampleStore.db "T1" "0612345678").1.nb_appels = 0 ∧
    (dlookup (get_client_info sampleStore.db "T1" "0612345678").2 "0612345678").map
      Client.nb_appels = some 1 ∧
    (get_client_info sampleStore.db "T1" "0612345678").1.dernier_appel = none ∧
    (dlookup (get_client_info sampleStore.db "T1" "0612345678").2 "0612345678").map
      Client.dernier_appel = some (some "T1") := by
  decide

/-- C4 (amended): `get` always succeeds. On a phone that normalizes to
a key of the store, the stored record's call count is incremented by
exactly one and its last-call timestamp set to now, and a copy of the
record as it was BEFORE that update is returned (the source copies
first, then mutates). On an empty, non-normalizing, or absent phone, a
synthesized placeholder with status `Non référencé` (NotOnFile) and
zero counters is returned and the store is left completely unchanged. -/
theorem claim_C4 (db : List (String × Client)) (now p : String) :
    (∀ q c, normalize_phone p = some q → dlookup db q = some c →
      get_client_info db now p =
        (c, dinsert db q
          { c with nb_appels := c.nb_appels + 1, dernier_appel := some now })) ∧
    ((p = "" ∨ normalize_phone p = none ∨
        (∃ q, normalize_phone p = some q ∧ dlookup db q = none)) →
      get_client_info db now p = (create_unknown_client p, db)) ∧
    (create_unknown_client p).statut = "Non référencé" ∧
    (create_unknown_client p).nb_appels = 0 := by
  refine ⟨?_, ?_, rfl, rfl⟩
  · intro q c hq hc
    have hp : p ≠ "" := by
      intro hp0
      rw [hp0, normalize_phone_empty] at hq
      simp at hq
    unfold get_client_info
    simp [hp, hq, hc]
  · intro hmiss
    by_cases hp : p = ""
    · unfold get_client_info
      simp [hp]
    · rcases hmiss with h | h | ⟨q, hq, hnone⟩
      · exact absurd h hp
      · unfold get_client_info
        simp [hp, h]
      · unfold get_client_info
        simp [hp, hq, hnone]

/-- C4 witness: a hit on the sample store returns the pre-update record
and stores the incremented one; a miss returns the placeholder and
leaves the store untouched. -/
theorem claim_C4_witness :
    get_client_info sampleStore.db "T1" "0612345678" =
      ((dlookup sampleStore.db "0612345678").getD (create_unknown_client ""),
        dinsert sampleStore.db "0612345678"
          { (dlookup sampleStore.db "0612345678").getD (create_unknown_client "") with
            nb_appels := ((dlookup sampleStore.db "0612345678").getD
              (create_unknown_client "")).nb_appels + 1,
            dernier_appel := some "T1" }) ∧
    get_client_info sampleStore.db "T1" "9999" =
      (create_unknown_client "9999", sampleStore.db) :=
  ⟨(claim_C4 sampleStore.db "T1" "0612345678").1 "0612345678"
      ((dlookup sampleStore.db "0612345678").getD (create_unknown_client ""))
      (by decide) (by decide),
    (claim_C4 sampleStore.db "T1" "9999").2.1 (Or.inr (Or.inl (by decide)))⟩

/-- C1 counterexample: with a nonempty prior store, a corrupt workbook
(`openpyxl.load_workbook` raising, modelled as `none`) makes the
ingestion fail as a batch — but the prior store contents are NOT
preserved: both globals were reassigned to empty before the `try:`
block, so the resulting store differs from the prior one (it is empty). -/
theorem claim_C1_counterexample :
    sampleStore.db.length = 1 ∧
    (load_clients_from_excel sampleStore none "NOW").1 =
      Except.error "Erreur lecture Excel" ∧
    (load_clients_from_excel sampleStore none "NOW").2 ≠ sampleStore :=
  ⟨by decide, rfl, by decide⟩

/-- C1 (amended): a catastrophic spreadsheet parse error is surfaced as
a batch-level failure (the `ValueError` re-raise, answered as an HTTP
500 by the upload route), but the prior ClientStore contents are lost,
not preserved: the source clears both the phone map and the grouping
index before opening the workbook, so after the failure the store is
empty whatever it held before. -/
theorem claim_C1 (prior : Store) (now : String) :
    load_clients_from_excel prior none now =
      (Except.error "Erreur lecture Excel", ⟨[], []⟩) := by
  cases prior
  rfl

/-- C7 witness: the five shapes of `0612345678` all normalize to it. -/
theorem claim_C7_witness :
    normalize_phone (String.mk ('0' :: '0' :: '3' :: '3' :: "612345678".data)) =
        some (String.mk ('0' :: "612345678".data)) ∧
    normalize_phone (String.mk ('+' :: '3' :: '3' :: "612345678".data)) =
        some (String.mk ('0' :: "612345678".data)) ∧
    normalize_phone (String.mk ('3' :: '3' :: "612345678".data)) =
        some (String.mk ('0' :: "612345678".data)) ∧
    normalize_phone (String.mk ('0' :: "612345678".data)) =
        some (String.mk ('0' :: "612345678".data)) ∧
    normalize_phone (String.mk "612345678".data) =
        some (String.mk ('0' :: "612345678".data)) :=
  claim_C7 "612345678".data (by decide) (by decide)

/-! #### String-surgery lemmas for the export round trip -/

theorem dropWhile_length_le {α : Type} (p : α → Bool) (l : List α) :
    (l.dropWhile p).length ≤ l.length := by
  induction l with
  | nil => simp
  | cons c t ih =>
    by_cases h : p c
    · simp only [List.dropWhile_cons, h, if_true, List.length_cons]
      omega
    · simp [List.dropWhile_cons, h]

theorem lstripL_cons_of_not_ws {c : Char} (h : isPyWs c = false) (l : List Char) :
    lstripL (c :: l) = c :: l := by
  simp [lstripL, List.dropWhile_cons, h]

theorem stripOK_lstrip {l : List Char} (h : pystrip l = l) : lstripL l = l := by
  have h1 : (lstripL l).length ≤ l.length := dropWhile_length_le _ _
  have h2 : (pystrip l).length ≤ (lstripL l).length := by
    unfold pystrip rstripL
    have := dropWhile_length_le isPyWs (lstripL l).reverse
    simpa using this
  have hlen : (lstripL l).length = l.length := by
    rw [h] at h2
    omega
  have hsplit := List.takeWhile_append_dropWhile (p := isPyWs) (l := l)
  have htw : (l.takeWhile isPyWs).length = 0 := by
    have := congrArg List.length hsplit
    simp only [List.length_append] at this
    unfold lstripL at hlen
    omega
  have htw' : l.takeWhile isPyWs = [] := List.eq_nil_of_length_eq_zero htw
  unfold lstripL
  conv_rhs => rw [← hsplit, htw']
  simp

theorem stripOK_rstrip {l : List Char} (h : pystrip l = l) : rstripL l = l := by
  have h1 := stripOK_lstrip h
  unfold pystrip at h
  rw [h1] at h
  exact h

theorem stripOK_head {l : List Char} (h : pystrip l = l) :
    ∀ ch, l.head? = some ch → isPyWs ch = false := by
  intro ch hch
  have h1 := stripOK_lstrip h
  cases l with
  | nil => cases hch
  | cons c t =>
    simp only [List.head?_cons, Option.some_inj] at hch
    subst hch
    by_cases hw : isPyWs c
    · exfalso
      unfold lstripL at h1
      rw [List.dropWhile_cons, if_pos hw] at h1
      have hlen1 := congrArg List.length h1
      have hle := dropWhile_length_le isPyWs t
      simp only [List.length_cons] at hlen1
      omega
    · exact Bool.eq_false_iff.mpr hw

theorem rstripOK_getLast {l : List Char} (h : rstripL l = l) :
    ∀ ch, l.getLast? = some ch → isPyWs ch = false := by
  intro ch hch
  have hrev : l.reverse.head? = some ch := by
    rw [List.head?_reverse]
    exact hch
  cases hr : l.reverse with
  | nil => rw [hr] at hrev; cases hrev
  | cons c t =>
    rw [hr] at hrev
    cases hrev
    by_cases hw : isPyWs ch
    · exfalso
      unfold rstripL at h
      rw [hr, List.dropWhile_cons, if_pos hw] at h
      have hlen := congrArg List.length h
      have hle := dropWhile_length_le isPyWs t
      have hlr : l.length = t.length + 1 := by
        rw [← List.length_reverse l, hr, List.length_cons]
      simp only [List.length_reverse] at hlen
      omega
    · exact Bool.eq_false_iff.mpr hw

theorem rstripL_of_dropWhile (l : List Char)
    (h : l.reverse.dropWhile isPyWs = l.reverse) : rstripL l = l := by
  unfold rstripL
  rw [h, List.reverse_reverse]

theorem rstripOK_dropWhile {l : List Char} (h : rstripL l = l) :
    l.reverse.dropWhile isPyWs = l.reverse := by
  unfold rstripL at h
  have := congrArg List.reverse h
  rwa [List.reverse_reverse] at this

theorem digit_not_pyws {ch : Char} (h : ch.isDigit = true) : isPyWs ch = false := by
  unfold isPyWs
  have hne : ∀ c : Char, c.isDigit = false → ch ≠ c := by
    intro c hc he
    rw [he, hc] at h
    cases h
  simp only [Bool.or_eq_false_iff, decide_eq_false_iff_not]
  exact ⟨⟨⟨⟨⟨hne ' ' (by decide), hne '\t' (by decide)⟩, hne '\n' (by decide)⟩,
    hne '\r' (by decide)⟩, hne (Char.ofNat 11) (by decide)⟩, hne (Char.ofNat 12) (by decide)⟩

theorem dropWhile_eq_self_of_head {α : Type} {p : α → Bool} {l : List α}
    (h : ∀ c, l.head? = some c → p c = false) : l.dropWhile p = l := by
  cases l with
  | nil => rfl
  | cons a t =>
    rw [List.dropWhile_cons, if_neg]
    simp [h a rfl]

theorem pystrip_of_no_ws {l : List Char} (h : ∀ ch ∈ l, isPyWs ch = false) :
    pystrip l = l := by
  have h1 : lstripL l = l := by
    apply dropWhile_eq_self_of_head
    intro c hc
    exact h c (List.mem_of_mem_head? hc)
  have h2 : rstripL l = l := by
    apply rstripL_of_dropWhile
    apply dropWhile_eq_self_of_head
    intro c hc
    exact h c (List.mem_reverse.mp (List.mem_of_mem_head? hc))
  unfold pystrip
  rw [h1, h2]

theorem pysplit_cons_eq (sep c : Char) (rest : List Char) :
    pysplit sep (c :: rest) =
      match pysplit sep rest with
      | [] => if c = sep then [[], []] else [[c]]
      | h :: t => if c = sep then [] :: h :: t else (c :: h) :: t := rfl

theorem pysplit_ne_nil (sep : Char) (l : List Char) : pysplit sep l ≠ [] := by
  cases l with
  | nil => simp [pysplit]
  | cons c rest =>
    rw [pysplit_cons_eq]
    split <;> split <;> simp_all

theorem pysplit_no_sep {sep : Char} {l : List Char} (h : sep ∉ l) : pysplit sep l = [l] := by
  induction l with
  | nil => rfl
  | cons c rest ih =>
    simp only [List.mem_cons] at h
    push_neg at h
    unfold pysplit
    rw [ih h.2]
    simp [Ne.symm h.1]

theorem pysplit_append_sep {sep : Char} {x : List Char} (h : sep ∉ x) (r : List Char) :
    pysplit sep (x ++ sep :: r) = x :: pysplit sep r := by
  induction x with
  | nil =>
    simp only [List.nil_append]
    rw [pysplit_cons_eq]
    cases hr : pysplit sep r with
    | nil => exact absurd hr (pysplit_ne_nil sep r)
    | cons a t => simp
  | cons c x' ih =>
    simp only [List.mem_cons] at h
    push_neg at h
    simp only [List.cons_append]
    rw [pysplit_cons_eq, ih h.2]
    simp [Ne.symm h.1]

theorem joinSep_cons_cons (s : Char) (x y : List Char) (rest : List (List Char)) :
    joinSep [s] (x :: y :: rest) = x ++ s :: joinSep [s] (y :: rest) := by
  simp [joinSep]

theorem pysplit_joinSep {sep : Char} (fs : List (List Char)) (hne : fs ≠ [])
    (hf : ∀ f ∈ fs, sep ∉ f) : pysplit sep (joinSep [sep] fs) = fs := by
  induction fs with
  | nil => exact absurd rfl hne
  | cons x rest ih =>
    cases rest with
    | nil => exact pysplit_no_sep (hf x (by simp))
    | cons y rest' =>
      rw [joinSep_cons_cons, pysplit_append_sep (hf x (by simp))]
      rw [ih (by simp) (fun f hf' => hf f (by simp [hf']))]

theorem splitFirstSpace_no_space {l : List Char} (h : ' ' ∉ l) :
    splitFirstSpace l = (l, none) := by
  induction l with
  | nil => rfl
  | cons c t ih =>
    simp only [List.mem_cons] at h
    push_neg at h
    unfold splitFirstSpace
    simp [Ne.symm h.1, ih h.2]

theorem splitFirstSpace_append {x : List Char} (h : ' ' ∉ x) (r : List Char) :
    splitFirstSpace (x ++ ' ' :: r) = (x, some r) := by
  induction x with
  | nil => simp [splitFirstSpace]
  | cons c x' ih =>
    simp only [List.mem_cons] at h
    push_neg at h
    simp only [List.cons_append]
    unfold splitFirstSpace
    simp [Ne.symm h.1, ih h.2]

theorem normalizePhoneL_canonical {d : List Char} (hl : d.length = 9)
    (hd : d.all Char.isDigit = true) : normalizePhoneL ('0' :: d) = some ('0' :: d) := by
  have hc : phoneClean ('0' :: d) = '0' :: d := by
    unfold phoneClean
    apply List.filter_eq_self.mpr
    intro a ha
    rcases List.mem_cons.mp ha with h | h
    · simp [h]
    · have := List.all_eq_true.mp hd a h
      simp [this]
  have h1 : phoneRule0033 ('0' :: d) = none := by
    unfold phoneRule0033
    simp [hl]
  have h2 : phoneRulePlus33 ('0' :: d) = none := by
    unfold phoneRulePlus33
    simp [hl]
  have h3 : phoneRule33 ('0' :: d) = none := by
    unfold phoneRule33
    simp [hl]
  have hrule : phoneRule0 ('0' :: d) = some d := by
    unfold phoneRule0
    simp [startsWithL, hl, hd]
  simp [normalizePhoneL, phoneMatchRules, hc, h1, h2, h3, hrule, phoneTryRule, hl, startsWithL]

theorem str_ne_empty_data {s : String} (h : s ≠ "") : s.data ≠ [] := by
  intro hd
  apply h
  cases s with
  | mk data =>
    simp only at hd
    rw [hd]

theorem normalize_phone_canonical {s : String} (h : telOK s) : normalize_phone s = some s := by
  obtain ⟨hlen, htake, hdig⟩ := h
  cases hd : s.data with
  | nil => rw [hd] at hlen; cases hlen
  | cons c d =>
    have hc : c = '0' := by
      rw [hd] at htake
      simpa using htake
    subst hc
    rw [hd] at hlen hdig
    have hl9 : d.length = 9 := by
      simp only [List.length_cons] at hlen
      omega
    have hd9 : d.all Char.isDigit = true := by
      simp only [List.all_cons, Bool.and_eq_true] at hdig
      exact hdig.2
    unfold normalize_phone
    rw [hd, normalizePhoneL_canonical hl9 hd9]
    show some (String.mk ('0' :: d)) = some s
    rw [← hd]

theorem pystrip_nom_space {nom : List Char} (h : pystrip nom = nom) :
    pystrip (nom ++ [' ']) = nom := by
  cases nom with
  | nil => decide
  | cons c t =>
    have hhead : isPyWs c = false := stripOK_head h c rfl
    have h1 : lstripL ((c :: t) ++ [' ']) = (c :: t) ++ [' '] := by
      simp only [List.cons_append]
      exact lstripL_cons_of_not_ws hhead _
    have h2 : rstripL ((c :: t) ++ [' ']) = c :: t := by
      unfold rstripL
      rw [List.reverse_append]
      show ((' ' :: (c :: t).reverse).dropWhile isPyWs).reverse = c :: t
      rw [List.dropWhile_cons, if_pos (by decide)]
      rw [rstripOK_dropWhile (stripOK_rstrip h)]
      exact List.reverse_reverse _
    unfold pystrip
    rw [h1, h2]

theorem pystrip_nomprenom {nom pre : List Char} (hnom : pystrip nom = nom)
    (hnomne : nom ≠ []) (hprene : pre ≠ []) (hpreR : pre.reverse.dropWhile isPyWs = pre.reverse) :
    pystrip (nom ++ ' ' :: pre) = nom ++ ' ' :: pre := by
  cases nom with
  | nil => exact absurd rfl hnomne
  | cons c t =>
    have hhead : isPyWs c = false := stripOK_head hnom c rfl
    have h1 : lstripL ((c :: t) ++ ' ' :: pre) = (c :: t) ++ ' ' :: pre := by
      simp only [List.cons_append]
      exact lstripL_cons_of_not_ws hhead _
    have h2 : rstripL ((c :: t) ++ ' ' :: pre) = (c :: t) ++ ' ' :: pre := by
      apply rstripL_of_dropWhile
      simp only [List.reverse_append, List.reverse_cons, List.append_assoc]
      rw [List.dropWhile_append, hpreR]
      have hne : pre.reverse.isEmpty = false := by
        cases hp : pre.reverse with
        | nil =>
          exfalso
          apply hprene
          simpa using hp
        | cons _ _ => rfl
      rw [hne]
      simp
    unfold pystrip
    rw [h1, h2]

theorem pystrip_cons_zero_ne (z : List Char) : (pystrip ('0' :: z)).isEmpty = false := by
  unfold pystrip
  rw [lstripL_cons_of_not_ws (by decide)]
  unfold rstripL
  cases hdw : List.dropWhile isPyWs ('0' :: z).reverse with
  | nil =>
    exfalso
    have hall := List.dropWhile_eq_nil_iff.mp hdw
    have h0 := hall '0' (List.mem_reverse.mpr (by simp))
    exact absurd h0 (by decide)
  | cons a t => simp

theorem mk_data (l : List Char) : (String.mk l).data = l := rfl

theorem mk_data_eta (s : String) : String.mk s.data = s := rfl

theorem telOK_shape {s : String} (h : telOK s) :
    ∃ d, s.data = '0' :: d ∧ d.length = 9 ∧ d.all Char.isDigit = true := by
  obtain ⟨hlen, htake, hdig⟩ := h
  cases hd : s.data with
  | nil => rw [hd] at hlen; cases hlen
  | cons c d =>
    have hc : c = '0' := by
      rw [hd] at htake
      simpa using htake
    subst hc
    rw [hd] at hlen hdig
    simp only [List.length_cons] at hlen
    simp only [List.all_cons, Bool.and_eq_true] at hdig
    exact ⟨d, rfl, by omega, hdig.2⟩

theorem telOK_strip {s : String} (h : telOK s) : pystrip s.data = s.data := by
  apply pystrip_of_no_ws
  intro ch hch
  exact digit_not_pyws (List.all_eq_true.mp h.2.2 ch hch)

theorem telOK_no_pipe_nl {s : String} (h : telOK s) :
    ∀ ch ∈ s.data, ch ≠ '|' ∧ ch ≠ '\n' := by
  intro ch hch
  have hdig := List.all_eq_true.mp h.2.2 ch hch
  constructor
  · rintro rfl
    exact absurd hdig (by decide)
  · rintro rfl
    exact absurd hdig (by decide)

/-- Evaluate the pipe-line parser on a line known to split into exactly
eight fields. -/
theorem parsePipeLine_eval (now' : String) (line : List Char)
    (hblank : (pystrip line).isEmpty = false)
    (f0 f1 f2 f3 f4 f5 f6 f7 : List Char)
    (hsplit : pysplit '|' line = [f0, f1, f2, f3, f4, f5, f6, f7]) :
    parsePipeLine now' line =
      match normalize_phone (String.mk (pystrip f0)) with
      | none => none
      | some telephone =>
        some ({ nom := (splitNomComplet (String.mk (pystrip f1))).1,
                prenom := (splitNomComplet (String.mk (pystrip f1))).2,
                email := String.mk (pystrip f3),
                entreprise := "N/A", telephone := telephone,
                adresse := String.mk (pystrip f4),
                ville := (villeParse (String.mk (pystrip f5))).1,
                code_postal := (villeParse (String.mk (pystrip f5))).2,
                banque := (bankFields (String.mk (pystrip f6))).2.1,
                bank_code := (bankFields (String.mk (pystrip f6))).1,
                swift := String.mk (pystrip f7),
                iban := String.mk (pystrip f6),
                sexe := "N/A", date_naissance := String.mk (pystrip f2),
                lieu_naissance := "N/A", profession := "N/A", statut := "Prospect",
                date_upload := now', nb_appels := 0, dernier_appel := none,
                notes := "" }, (bankFields (String.mk (pystrip f6))).2.2) := by
  unfold parsePipeLine
  simp only [hblank, hsplit, Bool.false_eq_true, if_false, getPart]
  norm_num

/-- A safe record's name field re-splits into the original last and
first names. -/
theorem splitNom_roundtrip (c : Client) (hnosp : ' ' ∉ c.nom.data)
    (hnomS : stripOK c.nom)
    (hprec : c.prenom ≠ "" → c.nom ≠ "" ∧ rstripOK c.prenom) :
    splitNomComplet (String.mk (pystrip (c.nom ++ " " ++ c.prenom).data)) =
      (c.nom, c.prenom) := by
  have hdata : (c.nom ++ " " ++ c.prenom).data = c.nom.data ++ ' ' :: c.prenom.data := by
    simp [String.data_append]
  rw [hdata]
  by_cases hp : c.prenom = ""
  · have hpd : c.prenom.data = [] := by rw [hp]
    rw [hpd]
    rw [pystrip_nom_space hnomS]
    show splitNomComplet c.nom = (c.nom, c.prenom)
    unfold splitNomComplet
    rw [splitFirstSpace_no_space hnosp]
    rw [hp]
  · obtain ⟨hnomne, hpreR⟩ := hprec hp
    have hpd : c.prenom.data ≠ [] := str_ne_empty_data hp
    have hnd : c.nom.data ≠ [] := str_ne_empty_data hnomne
    rw [pystrip_nomprenom hnomS hnd hpd (rstripOK_dropWhile hpreR)]
    unfold splitNomComplet
    rw [mk_data, splitFirstSpace_append hnosp]

theorem no_pipe_of_noPipeNL {s : String} (h : noPipeNL s) : '|' ∉ s.data :=
  fun hm => ((h _ hm).1 rfl)

theorem no_nl_of_noPipeNL {s : String} (h : noPipeNL s) : '\n' ∉ s.data :=
  fun hm => ((h _ hm).2 rfl)

theorem not_mem_data_append {ch : Char} {a b : String} (ha : ch ∉ a.data)
    (hb : ch ∉ b.data) : ch ∉ (a ++ b).data := by
  rw [String.data_append]
  intro hm
  rcases List.mem_append.mp hm with hm | hm
  · exact ha hm
  · exact hb hm

/-- Parsing the exported line of a safe record accepts it and
reconstructs the phone, last name, first name and account identifier. -/
theorem parsePipeLine_export (now' : String) (c : Client) (h : RoundTripSafe c) :
    ∃ c' det, parsePipeLine now' (exportPipeLine c) = some (c', det) ∧
      c'.telephone = c.telephone ∧ c'.nom = c.nom ∧ c'.prenom = c.prenom ∧
      c'.iban = c.iban := by
  obtain ⟨htel, hnom, hpre, hdn, hem, had, hvl, hcp, hib, hsw, hnosp, hnomS, hibS, hswS,
    hprec⟩ := h
  have hFpipe : ∀ f ∈ [c.telephone.data, (c.nom ++ " " ++ c.prenom).data,
      c.date_naissance.data, c.email.data, c.adresse.data,
      (c.ville ++ " (" ++ c.code_postal ++ ")").data, c.iban.data, c.swift.data],
      '|' ∉ f := by
    intro f hf
    simp only [List.mem_cons, List.not_mem_nil, or_false] at hf
    rcases hf with rfl | rfl | rfl | rfl | rfl | rfl | rfl | rfl
    · intro hm
      exact (telOK_no_pipe_nl htel '|' hm).1 rfl
    · exact not_mem_data_append
        (not_mem_data_append (no_pipe_of_noPipeNL hnom) (by decide))
        (no_pipe_of_noPipeNL hpre)
    · exact no_pipe_of_noPipeNL hdn
    · exact no_pipe_of_noPipeNL hem
    · exact no_pipe_of_noPipeNL had
    · exact not_mem_data_append (not_mem_data_append
        (not_mem_data_append (no_pipe_of_noPipeNL hvl) (by decide))
        (no_pipe_of_noPipeNL hcp)) (by decide)
    · exact no_pipe_of_noPipeNL hib
    · exact no_pipe_of_noPipeNL hsw
  have hsplit : pysplit '|' (exportPipeLine c) = [c.telephone.data,
      (c.nom ++ " " ++ c.prenom).data, c.date_naissance.data, c.email.data,
      c.adresse.data, (c.ville ++ " (" ++ c.code_postal ++ ")").data,
      c.iban.data, c.swift.data] := by
    show pysplit '|' (joinSep ['|'] _) = _
    exact pysplit_joinSep _ (by simp) hFpipe
  obtain ⟨d, hd, hdl, hdd⟩ := telOK_shape htel
  have hline : exportPipeLine c = '0' :: (d ++ '|' :: joinSep ['|']
      [(c.nom ++ " " ++ c.prenom).data, c.date_naissance.data, c.email.data,
        c.adresse.data, (c.ville ++ " (" ++ c.code_postal ++ ")").data,
        c.iban.data, c.swift.data]) := by
    show joinSep ['|'] _ = _
    rw [joinSep_cons_cons, hd]
    rfl
  have hblank : (pystrip (exportPipeLine c)).isEmpty = false := by
    rw [hline]
    exact pystrip_cons_zero_ne _
  have key := parsePipeLine_eval now' (exportPipeLine c) hblank _ _ _ _ _ _ _ _ hsplit
  have htelstrip : String.mk (pystrip c.telephone.data) = c.telephone := by
    rw [telOK_strip htel]
  have hibstrip : String.mk (pystrip c.iban.data) = c.iban := by
    rw [hibS]
  have hsplitnom := splitNom_roundtrip c hnosp hnomS hprec
  rw [htelstrip, normalize_phone_canonical htel, hsplitnom, hibstrip] at key
  exact ⟨_, _, key, rfl, rfl, rfl, rfl⟩

theorem mem_joinSep {ch s : Char} : ∀ {fs : List (List Char)}, ch ∈ joinSep [s] fs →
    ch = s ∨ ∃ f ∈ fs, ch ∈ f := by
  intro fs
  induction fs with
  | nil => intro h; cases h
  | cons x rest ih =>
    cases rest with
    | nil =>
      intro h
      right
      exact ⟨x, by simp, h⟩
    | cons y rest' =>
      intro h
      rw [joinSep_cons_cons] at h
      rcases List.mem_append.mp h with h | h
      · right
        exact ⟨x, by simp, h⟩
      · rcases List.mem_cons.mp h with h | h
        · left
          exact h
        · rcases ih h with h | ⟨f, hf, hm⟩
          · left
            exact h
          · right
            exact ⟨f, by simp [hf], hm⟩

theorem exportLine_no_nl (c : Client) (h : RoundTripSafe c) :
    '\n' ∉ exportPipeLine c := by
  obtain ⟨htel, hnom, hpre, hdn, hem, had, hvl, hcp, hib, hsw, _, _, _, _, _⟩ := h
  intro hm
  rcases mem_joinSep hm with hcs | ⟨f, hf, hmf⟩
  · exact absurd hcs (by decide)
  · simp only [List.mem_cons, List.not_mem_nil, or_false] at hf
    rcases hf with rfl | rfl | rfl | rfl | rfl | rfl | rfl | rfl
    · exact (telOK_no_pipe_nl htel '\n' hmf).2 rfl
    · exact not_mem_data_append
        (not_mem_data_append (no_nl_of_noPipeNL hnom) (by decide))
        (no_nl_of_noPipeNL hpre) hmf
    · exact no_nl_of_noPipeNL hdn hmf
    · exact no_nl_of_noPipeNL hem hmf
    · exact no_nl_of_noPipeNL had hmf
    · exact not_mem_data_append (not_mem_data_append
        (not_mem_data_append (no_nl_of_noPipeNL hvl) (by decide))
        (no_nl_of_noPipeNL hcp)) (by decide) hmf
    · exact no_nl_of_noPipeNL hib hmf
    · exact no_nl_of_noPipeNL hsw hmf

theorem exportLine_cons_zero (c : Client) (htel : telOK c.telephone) :
    ∃ z, exportPipeLine c = '0' :: z := by
  obtain ⟨d, hd, _, _⟩ := telOK_shape htel
  refine ⟨d ++ '|' :: joinSep ['|'] [(c.nom ++ " " ++ c.prenom).data,
    c.date_naissance.data, c.email.data, c.adresse.data,
    (c.ville ++ " (" ++ c.code_postal ++ ")").data, c.iban.data, c.swift.data], ?_⟩
  show joinSep ['|'] _ = _
  rw [joinSep_cons_cons, hd]
  rfl

theorem exportLine_getLast (c : Client) (hswS : stripOK c.swift) :
    ∀ ch, (exportPipeLine c).getLast? = some ch → isPyWs ch = false := by
  have hshape : exportPipeLine c =
      (c.telephone.data ++ '|' :: (c.nom ++ " " ++ c.prenom).data ++
        '|' :: c.date_naissance.data ++ '|' :: c.email.data ++ '|' :: c.adresse.data ++
        '|' :: (c.ville ++ " (" ++ c.code_postal ++ ")").data ++ '|' :: c.iban.data) ++
      '|' :: c.swift.data := by
    show joinSep ['|'] _ = _
    simp [joinSep, List.append_assoc]
  intro ch hch
  rw [hshape, List.getLast?_append_cons] at hch
  cases hsw : c.swift.data with
  | nil =>
    rw [hsw] at hch
    simp only [List.getLast?_singleton, Option.some_inj] at hch
    subst hch
    decide
  | cons a t =>
    rw [hsw, List.getLast?_cons_cons] at hch
    apply rstripOK_getLast (stripOK_rstrip hswS)
    rw [hsw]
    exact hch

theorem joinSep_getLast_pred (s : Char) (P : Char → Prop) :
    ∀ (lines : List (List Char)),
      (∀ l ∈ lines, ∀ ch, l.getLast? = some ch → P ch) →
      (∀ l ∈ lines, l ≠ []) → lines ≠ [] →
      ∀ ch, (joinSep [s] lines).getLast? = some ch → P ch := by
  intro lines
  induction lines with
  | nil => intro _ _ hne; exact absurd rfl hne
  | cons x rest ih =>
    intro hl hne _ ch hch
    cases rest with
    | nil => exact hl x (by simp) ch hch
    | cons y rest' =>
      rw [joinSep_cons_cons, List.getLast?_append_cons] at hch
      have hJ : joinSep [s] (y :: rest') ≠ [] := by
        cases rest' with
        | nil => exact hne y (by simp)
        | cons z rest'' =>
          rw [joinSep_cons_cons]
          intro hnil
          have := congrArg List.length hnil
          simp at this
      cases hJcase : joinSep [s] (y :: rest') with
      | nil => exact absurd hJcase hJ
      | cons j jt =>
        rw [hJcase, List.getLast?_cons_cons] at hch
        apply ih (fun l hl' => hl l (by simp [hl'])) (fun l hl' => hne l (by simp [hl']))
          (by simp) ch
        rw [hJcase]
        exact hch

theorem joinSep_head_zero {lines : List (List Char)} {z : List Char}
    (h : ∃ l0 rest, lines = l0 :: rest ∧ l0 = '0' :: z) :
    ∃ w, joinSep ['\n'] lines = '0' :: w := by
  obtain ⟨l0, rest, hlines, hl0⟩ := h
  subst hlines
  cases rest with
  | nil => exact ⟨z, hl0⟩
  | cons y rest' =>
    rw [joinSep_cons_cons, hl0]
    exact ⟨z ++ '\n' :: joinSep ['\n'] (y :: rest'), rfl⟩

theorem roundtrip_aux (now' : String) :
    ∀ (pending : List (String × Client)) (st : Store × Nat × Nat),
      (∀ pc ∈ pending, RoundTripSafe pc.2) →
      (∀ pc ∈ pending, pc.2.telephone ∉ st.1.db.map Prod.fst) →
      (pending.map (fun pc => pc.2.telephone)).Nodup →
      (((pending.map (fun pc => exportPipeLine pc.2)).foldl
          (fun st line => storeInsert st (parsePipeLine now' line)) st).1.db).map recProj =
        st.1.db.map recProj ++ pending.map recProj := by
  intro pending
  induction pending with
  | nil =>
    intro st _ _ _
    simp
  | cons pc rest ih =>
    intro st hsafe hfresh hnodup
    obtain ⟨c'', det, hkey, ht, hn, hp, hi⟩ :=
      parsePipeLine_export now' pc.2 (hsafe pc (by simp))
    simp only [List.map_cons, List.foldl_cons, hkey, storeInsert_some]
    have hfr : c''.telephone ∉ st.1.db.map Prod.fst := by
      rw [ht]
      exact hfresh pc (by simp)
    have hins : dinsert st.1.db c''.telephone c'' = st.1.db ++ [(c''.telephone, c'')] :=
      dinsert_of_not_mem c'' hfr
    rw [List.map_cons, List.nodup_cons] at hnodup
    obtain ⟨hhead, htail⟩ := hnodup
    have hS : ∀ pc' ∈ rest, RoundTripSafe pc'.2 := fun pc' h' => hsafe pc' (by simp [h'])
    have hF : ∀ pc' ∈ rest, pc'.2.telephone ∉
        (dinsert st.1.db c''.telephone c'').map Prod.fst := by
      intro pc' h'
      rw [hins, List.map_append]
      simp only [List.map_cons, List.map_nil, List.mem_append, List.mem_singleton]
      push_neg
      constructor
      · exact hfresh pc' (by simp [h'])
      · rw [ht]
        intro he
        apply hhead
        rw [← he]
        exact List.mem_map.mpr ⟨pc', h', rfl⟩
    have hih := ih (⟨dinsert st.1.db c''.telephone c'',
        dappend st.1.byBank c''.bank_code c''.telephone⟩,
      st.2.1 + 1, st.2.2 + (if det then 1 else 0)) hS hF htail
    rw [hih]
    have hproj : recProj (c''.telephone, c'') = recProj pc := by
      unfold recProj
      rw [ht, hn, hp, hi]
    show (dinsert st.1.db c''.telephone c'').map recProj ++ _ = _
    rw [hins, List.map_append]
    simp [hproj]

/-- C9 counterexample: a reachable store state (the spreadsheet parser
stores a last name containing a space whenever separate name columns
are mapped) whose export does NOT re-ingest to the same last-name
field: `De La` + `Jean` is exported as `De La Jean` and re-split at the
first space into `De` + `La Jean`. -/
theorem claim_C9_counterexample :
    ((load_clients_from_pipe_file (generate_all_clients_file_txt spacedNomStore)
        "T1").2.1.db).map recProj ≠ spacedNomStore.map recProj := by
  decide

/-- C9 (amended): for every store state whose records are round-trip
safe — canonical phone, no delimiter or newline inside any serialized
field, a space-free and edge-whitespace-free last name (with first name
empty whenever the last name is), stripped account identifier and
SWIFT fields — and whose record phones are pairwise distinct,
re-ingesting the delimited-text export reconstructs every record's
phone, last-name, first-name and account-identifier fields identically
and in order (status and call metrics are reset, the documented loss).
States produced by delimited-text ingestion have this shape;
spreadsheet ingestion can store a spaced last name, which the
counterexample shows breaking the round trip. -/
theorem claim_C9 (db : List (String × Client)) (now' : String)
    (hsafe : ∀ pc ∈ db, RoundTripSafe pc.2)
    (hnodup : (db.map (fun pc => pc.2.telephone)).Nodup) :
    ((load_clients_from_pipe_file (generate_all_clients_file_txt db) now').2.1.db).map recProj
      = db.map recProj := by
  cases db with
  | nil => rfl
  | cons pc0 rest =>
    have hline_no_nl : ∀ l ∈ (pc0 :: rest).map (fun pc => exportPipeLine pc.2),
        '\n' ∉ l := by
      intro l hl
      rcases List.mem_map.mp hl with ⟨pc, hpc, rfl⟩
      exact exportLine_no_nl pc.2 (hsafe pc hpc)
    have hline_ne : ∀ l ∈ (pc0 :: rest).map (fun pc => exportPipeLine pc.2), l ≠ [] := by
      intro l hl
      rcases List.mem_map.mp hl with ⟨pc, hpc, rfl⟩
      obtain ⟨z, hz⟩ := exportLine_cons_zero pc.2 (hsafe pc hpc).1
      rw [hz]
      simp
    have hline_last : ∀ l ∈ (pc0 :: rest).map (fun pc => exportPipeLine pc.2),
        ∀ ch, l.getLast? = some ch → isPyWs ch = false := by
      intro l hl
      rcases List.mem_map.mp hl with ⟨pc, hpc, rfl⟩
      obtain ⟨_, _, _, _, _, _, _, _, _, _, _, _, _, hswS, _⟩ := hsafe pc hpc
      exact exportLine_getLast pc.2 hswS
    obtain ⟨z0, hz0⟩ := exportLine_cons_zero pc0.2 (hsafe pc0 (by simp)).1
    obtain ⟨w, hw⟩ := @joinSep_head_zero
      ((pc0 :: rest).map (fun pc => exportPipeLine pc.2)) z0
      ⟨exportPipeLine pc0.2, rest.map (fun pc => exportPipeLine pc.2),
        List.map_cons _ _ _, hz0⟩
    have hstrip : pystrip (joinSep ['\n'] ((pc0 :: rest).map (fun pc => exportPipeLine pc.2)))
        = joinSep ['\n'] ((pc0 :: rest).map (fun pc => exportPipeLine pc.2)) := by
      have h1 : lstripL (joinSep ['\n'] ((pc0 :: rest).map (fun pc => exportPipeLine pc.2)))
          = joinSep ['\n'] ((pc0 :: rest).map (fun pc => exportPipeLine pc.2)) := by
        rw [hw]
        exact lstripL_cons_of_not_ws (by decide) _
      have h2 : rstripL (joinSep ['\n'] ((pc0 :: rest).map (fun pc => exportPipeLine pc.2)))
          = joinSep ['\n'] ((pc0 :: rest).map (fun pc => exportPipeLine pc.2)) := by
        apply rstripL_of_dropWhile
        apply dropWhile_eq_self_of_head
        intro ch hch
        apply joinSep_getLast_pred '\n' (fun ch => isPyWs ch = false) _
          hline_last hline_ne (by simp) ch
        rw [← List.head?_reverse]
        exact hch
      unfold pystrip
      rw [h1, h2]
    unfold load_clients_from_pipe_file generate_all_clients_file_txt pipeLines
    rw [mk_data, hstrip, pysplit_joinSep _ (by simp) hline_no_nl]
    have haux := roundtrip_aux now' (pc0 :: rest) (⟨[], []⟩, 0, 0) hsafe
      (by intro pc hpc; exact List.not_mem_nil _) hnodup
    simpa using haux

/-- C9 witness: the one-record sample store is round-trip safe and its
export re-ingests to the same phone, name and account identifier. -/
theorem claim_C9_witness :
    ((load_clients_from_pipe_file (generate_all_clients_file_txt sampleStore.db)
        "T1").2.1.db).map recProj = sampleStore.db.map recProj :=
  claim_C9 sampleStore.db "T1" (by decide) (by decide)

end RenderOvh
